import Mathlib

/-!
Verification of the deterministic text-to-structured-workout parser of the
sam-fit repository (src/services/workoutExtractorOCR.ts).

The JavaScript/TypeScript source is shallowly embedded: strings are Lean
strings (processed as lists of characters), JS regular-expression matches are
hand-translated into executable matching functions, JS numbers that hold
integer data are embedded as Nat/Int (with Option for NaN/undefined), and the
confidence arithmetic is embedded over the rationals.

The helper modules utils/timeUtils (parseTimeToSeconds, formatSecondsToTime)
and utils/movementNormalizer (normalizeMovementName) are imported by the
parser but are not part of the source snapshot; they are modelled from the
spec (each such definition carries a doc comment starting with
"Modelled from the spec:").
-/

namespace SamFit

/-! ## Character classes and basic list utilities -/

/-- JS whitespace class \s (the ASCII part, which is what OCR lines contain):
space, tab, newline, carriage return, vertical tab, form feed. -/
def jsIsWs (c : Char) : Bool :=
  c = ' ' || c = '\t' || c = '\n' || c = '\r' || c = '\x0b' || c = '\x0c'

/-- JS digit class \d. -/
def isDigitC (c : Char) : Bool := '0' ≤ c && c ≤ '9'

/-- JS letter class [a-zA-Z]. -/
def isLetterC (c : Char) : Bool := ('a' ≤ c && c ≤ 'z') || ('A' ≤ c && c ≤ 'Z')

/-- String.trim of JS (String.prototype.trim), on character lists. -/
def jsTrimL (l : List Char) : List Char :=
  ((l.dropWhile jsIsWs).reverse.dropWhile jsIsWs).reverse

/-- JS trim lifted to strings. -/
def jsTrimS (s : String) : String := ⟨jsTrimL s.data⟩

/-- Lower-casing a character list (JS toLowerCase on ASCII input). -/
def lowerL (l : List Char) : List Char := l.map Char.toLower

/-- Lower-casing a string. -/
def lowerS (s : String) : String := ⟨lowerL s.data⟩

/-- Does l start with the pattern pat (exact characters)? -/
def startsWithL : List Char → List Char → Bool
  | [], _ => true
  | _ :: _, [] => false
  | p :: ps, c :: cs => p = c && startsWithL ps cs

/-- Does l start with the pattern pat, comparing case-insensitively
(pat is given in lower case)? -/
def startsWithCI (pat l : List Char) : Bool := startsWithL pat (lowerL l)

/-- Does pat occur as a contiguous substring of l (JS String.includes)? -/
def containsSub (pat : List Char) : List Char → Bool
  | [] => startsWithL pat []
  | c :: cs => startsWithL pat (c :: cs) || containsSub pat cs

/-- JS String.includes on strings. -/
def includesS (pat s : String) : Bool := containsSub pat.data s.data

/-- Replace every occurrence of the character a by b (JS replace(/a/g, b)). -/
def replaceAllC (a b : Char) (l : List Char) : List Char :=
  l.map (fun c => if c = a then b else c)

/-- State machine of collapseWsL; the flag records whether we are inside a
whitespace run whose single replacement space was already emitted. -/
def collapseWsAux (inRun : Bool) : List Char → List Char
  | [] => []
  | c :: cs =>
    if jsIsWs c then
      if inRun then collapseWsAux true cs else ' ' :: collapseWsAux true cs
    else c :: collapseWsAux false cs

/-- Collapse every whitespace run into a single space
(JS replace(/\s+/g, ' ')). -/
def collapseWsL (l : List Char) : List Char :=
  collapseWsAux false l

/-- Split a character list at every occurrence of the separator character
(JS String.split with a one-character separator). -/
def splitOnC (sep : Char) : List Char → List (List Char)
  | [] => [[]]
  | c :: cs =>
    if c = sep then [] :: splitOnC sep cs
    else
      match splitOnC sep cs with
      | t :: ts => (c :: t) :: ts
      | [] => [[c]]

/-- Join character lists with a separator list (JS Array.join). -/
def joinWithL (sep : List Char) : List (List Char) → List Char
  | [] => []
  | [p] => p
  | p :: ps => p ++ sep ++ joinWithL sep ps

/-- State machine splitting on whitespace runs, as JS split(/\s+/): the flag
records whether we are inside a separating run (the accumulator is then
empty); boundary whitespace yields empty fields at the ends. -/
def splitWsAux (skipping : Bool) (cur : List Char) : List Char → List (List Char)
  | [] => if skipping then [[]] else [cur.reverse]
  | c :: cs =>
    if jsIsWs c then
      if skipping then splitWsAux true [] cs
      else cur.reverse :: splitWsAux true [] cs
    else splitWsAux false (c :: cur) cs

/-- JS split(/\s+/) on a string, returning the fields as strings. -/
def jsSplitWs (s : String) : List String :=
  (splitWsAux false [] s.data).map (fun l => (⟨l⟩ : String))

/-- Leading digit run of a character list. -/
def takeDigits (l : List Char) : List Char := l.takeWhile isDigitC

/-- Numeric value of a (non-empty) digit list. -/
def digitsToNat (l : List Char) : Nat :=
  l.foldl (fun acc c => acc * 10 + (c.toNat - '0'.toNat)) 0

/-- JS parseInt(s, 10): skip leading whitespace, optional sign, then a
leading digit run; NaN (no digits) becomes none. -/
def jsParseInt (s : String) : Option Int :=
  let l := s.data.dropWhile jsIsWs
  match l with
  | '-' :: rest =>
    let ds := takeDigits rest
    if ds = [] then none else some (-(digitsToNat ds : Int))
  | '+' :: rest =>
    let ds := takeDigits rest
    if ds = [] then none else some (digitsToNat ds : Int)
  | rest =>
    let ds := takeDigits rest
    if ds = [] then none else some (digitsToNat ds : Int)

/-! ## Functions modelled from the spec

The parser imports parseTimeToSeconds and formatSecondsToTime from
utils/timeUtils and normalizeMovementName from utils/movementNormalizer;
those two modules are not part of the source snapshot. -/

/-- Modelled from the spec: parseTimeToSeconds (utils/timeUtils, missing from
the snapshot). Per the spec a string matching MM:SS, or MMSS with the colon
omitted, converts to total seconds (minutes times 60 plus seconds); anything
else yields no time. Minutes take 1 or 2 digits, seconds exactly 2. -/
def parseTimeToSeconds (s : String) : Option Int :=
  let l := jsTrimL s.data
  match l with
  | [m1, ':', s1, s2] =>
    if isDigitC m1 && isDigitC s1 && isDigitC s2 then
      some ((digitsToNat [m1] * 60 + digitsToNat [s1, s2] : Nat) : Int)
    else none
  | [m1, m2, ':', s1, s2] =>
    if isDigitC m1 && isDigitC m2 && isDigitC s1 && isDigitC s2 then
      some ((digitsToNat [m1, m2] * 60 + digitsToNat [s1, s2] : Nat) : Int)
    else none
  | [m1, s1, s2] =>
    if isDigitC m1 && isDigitC s1 && isDigitC s2 then
      some ((digitsToNat [m1] * 60 + digitsToNat [s1, s2] : Nat) : Int)
    else none
  | [m1, m2, s1, s2] =>
    if isDigitC m1 && isDigitC m2 && isDigitC s1 && isDigitC s2 then
      some ((digitsToNat [m1, m2] * 60 + digitsToNat [s1, s2] : Nat) : Int)
    else none
  | _ => none

/-- Modelled from the spec: formatSecondsToTime (utils/timeUtils, missing from
the snapshot). Renders a number of seconds as M:SS with two-digit,
zero-padded seconds (behaviour on negative input is unspecified by the spec;
we render the absolute value with a leading minus sign). -/
def formatSecondsToTime (n : Int) : String :=
  let sign : String := if n < 0 then "-" else ""
  let a : Nat := n.natAbs
  let m := a / 60
  let s := a % 60
  let pad : String := if s < 10 then "0" else ""
  sign ++ toString m ++ ":" ++ pad ++ toString s

/-- Modelled from the spec: normalizeMovementName (utils/movementNormalizer,
missing from the snapshot). The spec treats it as a pure string-to-string
canonicalizer and tells the parser not to special-case its output; we model
it as the identity, which is consistent with every scenario in the spec
(for example "Double Unders" stays "Double Unders"). -/
def normalizeMovementName (s : String) : String := s

/-! ## Hand-translated regular-expression matchers

Each JS regex used by the parser becomes an executable matching function.
Searches scan left to right (leftmost match), quantifiers follow the JS
greedy/backtracking order where it can influence the result. -/

/-- Generic leftmost search: apply the position matcher f to every suffix,
left to right, returning its first hit. -/
def findMapSuffix (f : List Char → Option α) : List Char → Option α
  | [] => f []
  | c :: cs =>
    match f (c :: cs) with
    | some r => some r
    | none => findMapSuffix f cs

/-- Is l (case-insensitively lowered) one of the given words? -/
def elemLowerIn (l : List Char) (ws : List String) : Bool :=
  ws.any (fun s => lowerL l == s.data)

/-- Do the first k characters exist and consist of digits? -/
def digitsLen (k : Nat) (l : List Char) : Bool :=
  decide ((l.take k).length = k) && (l.take k).all isDigitC

/-! ### Date pattern \d{1,2}\/\d{1,2}\/\d{2,4} -/

/-- Trailing component \d{2,4} of the date pattern, greedy; returns the
matched length. -/
def dateTail (l : List Char) : Option Nat :=
  if digitsLen 4 l then some 4
  else if digitsLen 3 l then some 3
  else if digitsLen 2 l then some 2
  else none

/-- One step \d{k}\/ followed by the tail matcher, returning the total
matched length. -/
def afterSlash (k : Nat) (tail : List Char → Option Nat) (l : List Char) : Option Nat :=
  if digitsLen k l && ((l.drop k).head? == some '/') then
    (tail (l.drop (k + 1))).map (k + 1 + ·)
  else none

/-- Middle component \d{1,2}\/\d{2,4} of the date pattern; returns the
matched length, trying two digits before one as the JS engine does. -/
def dateMid (l : List Char) : Option Nat :=
  match afterSlash 2 dateTail l with
  | some n => some n
  | none => afterSlash 1 dateTail l

/-- Date pattern \d{1,2}\/\d{1,2}\/\d{2,4} anchored at the head of l;
returns the matched length. -/
def dateAt (l : List Char) : Option Nat :=
  match afterSlash 2 dateMid l with
  | some n => some n
  | none => afterSlash 1 dateMid l

/-- Does the date pattern occur anywhere in l? -/
def dateSearch (l : List Char) : Bool :=
  (findMapSuffix dateAt l).isSome

/-- Worker of the global date removal: skip counts characters of a match
still to be deleted (a date match is at least four characters long, so the
skip never misses a character). -/
def stripDatesAux : List Char → Nat → List Char
  | [], _ => []
  | _ :: cs, Nat.succ k => stripDatesAux cs k
  | c :: cs, 0 =>
    match dateAt (c :: cs) with
    | some n => stripDatesAux cs (n - 1)
    | none => c :: stripDatesAux cs 0

/-- Global date removal, replace(/\d{1,2}\/\d{1,2}\/\d{2,4}/g, ''). -/
def stripDatesG (l : List Char) : List Char :=
  stripDatesAux l 0

/-- First-occurrence date removal, replace(/\d{1,2}\/\d{1,2}\/\d{2,4}/, ''). -/
def stripFirstDate : List Char → List Char
  | [] => []
  | c :: cs =>
    match dateAt (c :: cs) with
    | some n => cs.drop (n - 1)
    | none => c :: stripFirstDate cs

/-! ### Time patterns -/

/-- Tail :?(\d{2}) of the loose time pattern (the colon is optional). -/
def timePatTail (t : List Char) : Bool :=
  match t with
  | ':' :: r => digitsLen 2 r
  | _ => digitsLen 2 t

/-- Loose time pattern (\d{1,2}):?(\d{2}) anchored at the head of l. -/
def timePatAt (l : List Char) : Bool :=
  (digitsLen 2 l && timePatTail (l.drop 2)) ||
    (digitsLen 1 l && timePatTail (l.drop 1))

/-- Does (\d{1,2}):?(\d{2}) occur anywhere in l? -/
def timePatSearch (l : List Char) : Bool :=
  (findMapSuffix (fun t => if timePatAt t then some () else none) l).isSome

/-- Full-string match of ^(\d{1,2}):(\d{2})$ (a colon is required here). -/
def timeColonFull (l : List Char) : Bool :=
  match l with
  | [a, ':', b, c] => isDigitC a && isDigitC b && isDigitC c
  | [a, a2, ':', b, c] => isDigitC a && isDigitC a2 && isDigitC b && isDigitC c
  | _ => false

/-- Search for (\d{1,2}):(\d{2}) with a mandatory colon, returning the two
captured digit groups as numbers (used by the movement parser's handling of
lines starting with the at sign). -/
def colonTimeAt (l : List Char) : Option (Nat × Nat) :=
  if digitsLen 2 l && ((l.drop 2).head? == some ':') && digitsLen 2 (l.drop 3) then
    some (digitsToNat (l.take 2), digitsToNat ((l.drop 3).take 2))
  else if digitsLen 1 l && ((l.drop 1).head? == some ':') && digitsLen 2 (l.drop 2) then
    some (digitsToNat (l.take 1), digitsToNat ((l.drop 2).take 2))
  else none

/-- Leftmost (\d{1,2}):(\d{2}) capture in l. -/
def colonTimeFind (l : List Char) : Option (Nat × Nat) :=
  findMapSuffix colonTimeAt l

/-- Seconds part of the start/stop pattern: :?(\d{2}), returning the captured
seconds digits and the rest of the input. -/
def timeCapTail (t : List Char) : Option (List Char × List Char) :=
  match t with
  | ':' :: r => if digitsLen 2 r then some (r.take 2, r.drop 2) else none
  | _ => if digitsLen 2 t then some (t.take 2, t.drop 2) else none

/-- One (\d{1,2}):?(\d{2}) capture at the head of l, returning the minute
digits, second digits and the rest. -/
def timeCapture (l : List Char) : Option (List Char × List Char × List Char) :=
  if digitsLen 2 l then
    match timeCapTail (l.drop 2) with
    | some (s, r) => some (l.take 2, s, r)
    | none =>
      if digitsLen 1 l then
        match timeCapTail (l.drop 1) with
        | some (s, r) => some (l.take 1, s, r)
        | none => none
      else none
  else if digitsLen 1 l then
    match timeCapTail (l.drop 1) with
    | some (s, r) => some (l.take 1, s, r)
    | none => none
  else none

/-- Position matcher for
start:\s*(\d{1,2}):?(\d{2})\s*,\s*stop:\s*(\d{1,2}):?(\d{2}) (case
insensitive), returning the four captured digit groups. -/
def startStopAt (l : List Char) : Option (List Char × List Char × List Char × List Char) :=
  if startsWithCI "start:".data l then
    match timeCapture ((l.drop 6).dropWhile jsIsWs) with
    | some (m1, s1, r1) =>
      let r2 := r1.dropWhile jsIsWs
      match r2 with
      | ',' :: r3 =>
        let r4 := r3.dropWhile jsIsWs
        if startsWithCI "stop:".data r4 then
          match timeCapture ((r4.drop 5).dropWhile jsIsWs) with
          | some (m2, s2, _) => some (m1, s1, m2, s2)
          | none => none
        else none
      | _ => none
    | none => none
  else none

/-- Leftmost start/stop capture in l. -/
def startStopFind (l : List Char) : Option (List Char × List Char × List Char × List Char) :=
  findMapSuffix startStopAt l

/-! ### Title metadata patterns -/

/-- Tail \s*(?:cap|time\s*cap) of the time-cap pattern. -/
def capTail (l : List Char) : Bool :=
  let t := l.dropWhile jsIsWs
  startsWithCI "cap".data t ||
    (startsWithCI "time".data t &&
      startsWithCI "cap".data ((t.drop 4).dropWhile jsIsWs))

/-- Middle \s*(?:min|minute|m)\s* of the minute patterns, with the JS
alternation order min, minute, m; the continuation k receives the input
after the unit word, and is responsible for any following \s*. -/
def minUnitThen (k : List Char → Bool) (l : List Char) : Bool :=
  let t := l.dropWhile jsIsWs
  (startsWithCI "min".data t && k (t.drop 3)) ||
    (startsWithCI "minute".data t && k (t.drop 6)) ||
    (startsWithCI "m".data t && k (t.drop 1))

/-- Position matcher for (\d+)\s*(?:min|minute|m)\s*(?:cap|time\s*cap),
returning the captured minute count. -/
def timeCapAt (l : List Char) : Option Nat :=
  let ds := takeDigits l
  if ds = [] then none
  else if minUnitThen capTail (l.drop ds.length) then some (digitsToNat ds)
  else none

/-- Leftmost time-cap capture (regex of parseTitle, applied to the
lower-cased title). -/
def timeCapFind (l : List Char) : Option Nat :=
  findMapSuffix timeCapAt l

/-- Position matcher for E(\d+)MOM (case insensitive), returning the
captured digit characters (the source uses both the digit string and its
numeric value). -/
def edMomAt (l : List Char) : Option (List Char) :=
  match l with
  | c :: rest =>
    if c = 'E' || c = 'e' then
      let ds := takeDigits rest
      if ds ≠ [] && startsWithCI "mom".data (rest.drop ds.length) then
        some ds
      else none
    else none
  | [] => none

/-- Leftmost E(\d+)MOM capture. -/
def edMomFind (l : List Char) : Option (List Char) :=
  findMapSuffix edMomAt l

/-- Tail \s*emom of the minute-EMOM pattern. -/
def emomTail (l : List Char) : Bool :=
  startsWithCI "emom".data (l.dropWhile jsIsWs)

/-- Position matcher for (\d+)\s*(?:min|minute|m)\s*emom, returning the
captured period. -/
def minEmomAt (l : List Char) : Option Nat :=
  let ds := takeDigits l
  if ds = [] then none
  else if minUnitThen emomTail (l.drop ds.length) then some (digitsToNat ds)
  else none

/-- Leftmost (\d+)\s*(?:min|minute|m)\s*emom capture. -/
def minEmomFind (l : List Char) : Option Nat :=
  findMapSuffix minEmomAt l

/-- Tail \s*,?\s*(\d+)\s*(?:rds?|rounds?) of the sets pattern, returning the
captured round count. -/
def setsAfter (l : List Char) : Option Nat :=
  let t := l.dropWhile jsIsWs
  let t := if t.head? == some ',' then (t.drop 1).dropWhile jsIsWs else t
  let ds := takeDigits t
  if ds = [] then none
  else
    let t2 := (t.drop ds.length).dropWhile jsIsWs
    if startsWithCI "rd".data t2 || startsWithCI "round".data t2 then
      some (digitsToNat ds)
    else none

/-- Position matcher for (\d+)\s*sets?\s*,?\s*(\d+)\s*(?:rds?|rounds?),
returning both captures; the optional s after set is tried greedily first. -/
def setsAt (l : List Char) : Option (Nat × Nat) :=
  let ds := takeDigits l
  if ds = [] then none
  else
    let u := (l.drop ds.length).dropWhile jsIsWs
    if startsWithCI "set".data u then
      let withS :=
        if (u.drop 3).head? == some 's' || (u.drop 3).head? == some 'S' then
          setsAfter (u.drop 4)
        else none
      match withS with
      | some m => some (digitsToNat ds, m)
      | none =>
        match setsAfter (u.drop 3) with
        | some m => some (digitsToNat ds, m)
        | none => none
    else none

/-- Leftmost sets/rounds capture. -/
def setsFind (l : List Char) : Option (Nat × Nat) :=
  findMapSuffix setsAt l

/-- Full-string match of ^E\d+MOM$ (case insensitive). -/
def edMomFullAnchored (l : List Char) : Bool :=
  match l with
  | c :: rest =>
    (c = 'E' || c = 'e') &&
      (let ds := takeDigits rest
       ds ≠ [] && lowerL (rest.drop ds.length) == "mom".data)
  | [] => false

/-- Full-string match of ^(AMRAP|EMOM|CHIPPER)$ (case insensitive). -/
def bareCodeFull (l : List Char) : Bool :=
  elemLowerIn l ["amrap", "emom", "chipper"]

/-! ### Amount grammar and legacy movement patterns -/

/-- State machine for the tail (-\d+)* of the rep-ladder alternative,
anchored to the end: state 0 expects a dash or the end, state 1 the first
digit of a group, state 2 is inside a digit group. -/
def ladderAux : Nat → List Char → Bool
  | 0, [] => true
  | 0, c :: cs => c = '-' && ladderAux 1 cs
  | 1, [] => false
  | 1, c :: cs => isDigitC c && ladderAux 2 cs
  | 2, [] => true
  | 2, c :: cs =>
    if isDigitC c then ladderAux 2 cs
    else c = '-' && ladderAux 1 cs
  | _ + 3, _ => false

/-- Tail (-\d+)* of the rep-ladder alternative, anchored to the end. -/
def ladderTail (l : List Char) : Bool :=
  ladderAux 0 l

/-- Full-string match of the rep-ladder alternative \d+(?:-\d+)*. -/
def isLadderFull (l : List Char) : Bool :=
  let ds := takeDigits l
  ds ≠ [] && ladderTail (l.drop ds.length)

/-- Full-string match of \d+x\d+; ci selects case-insensitive matching of
the x (the grid amount regex is case sensitive, the legacy ones carry /i). -/
def isXTightFull (ci : Bool) (l : List Char) : Bool :=
  let ds := takeDigits l
  ds ≠ [] &&
    (match l.drop ds.length with
     | c :: rest =>
       (c = 'x' || (ci && c = 'X')) &&
         (let ds2 := takeDigits rest
          ds2 ≠ [] && rest.drop ds2.length == [])
     | [] => false)

/-- Full-string match of \d+\s*x\s*\d+. -/
def isXSpacedFull (ci : Bool) (l : List Char) : Bool :=
  let ds := takeDigits l
  ds ≠ [] &&
    (let t := (l.drop ds.length).dropWhile jsIsWs
     match t with
     | c :: rest =>
       (c = 'x' || (ci && c = 'X')) &&
         (let t2 := rest.dropWhile jsIsWs
          let ds2 := takeDigits t2
          ds2 ≠ [] && t2.drop ds2.length == [])
     | [] => false)

/-- Full-string match of the amount grammar
^(\d+(?:-\d+)*|(?:\d+x\d+)|(?:\d+\s*x\s*\d+))$ used for the grid format
(case sensitive, as in the source). -/
def amountFull (l : List Char) : Bool :=
  isLadderFull l || isXTightFull false l || isXSpacedFull false l

/-- Worker computing, in ascending order, the lengths of the non-empty
prefixes of the input matching (-\d+)*: state 0 is at a group boundary,
state 1 expects the first digit of a group, state 2 is inside a group (whose
end position is recorded when the digit run ends). k counts consumed
characters. -/
def lelAux : Nat → Nat → List Char → List Nat
  | 0, k, c :: cs => if c = '-' then lelAux 1 (k + 1) cs else []
  | 0, _, [] => []
  | 1, k, c :: cs => if isDigitC c then lelAux 2 (k + 1) cs else []
  | 1, _, [] => []
  | 2, k, c :: cs =>
    if isDigitC c then lelAux 2 (k + 1) cs
    else if c = '-' then k :: lelAux 1 (k + 1) cs
    else [k]
  | 2, k, [] => [k]
  | _ + 3, _, _ => []

/-- Lengths of the prefixes of l matching (-\d+)*, longest first (the JS
backtracking order); the empty extension 0 is always included. -/
def ladderExtLens (l : List Char) : List Nat :=
  (lelAux 0 0 l).reverse ++ [0]

/-- Candidate amount-prefix lengths of l in the JS alternation and
backtracking order: ladder prefixes (longest first), then \d+x\d+, then
\d+\s*x\s*\d+ (the legacy patterns carry /i, hence ci). -/
def amountPrefixLens (ci : Bool) (l : List Char) : List Nat :=
  let ds := takeDigits l
  if ds = [] then []
  else
    let ladders := (ladderExtLens (l.drop ds.length)).map (ds.length + ·)
    let tight :=
      match l.drop ds.length with
      | c :: rest =>
        if c = 'x' || (ci && c = 'X') then
          let ds2 := takeDigits rest
          if ds2 = [] then [] else [ds.length + 1 + ds2.length]
        else []
      | [] => []
    let spaced :=
      let w1 := ((l.drop ds.length).takeWhile jsIsWs).length
      match (l.drop ds.length).dropWhile jsIsWs with
      | c :: rest =>
        if c = 'x' || (ci && c = 'X') then
          let w2 := (rest.takeWhile jsIsWs).length
          let ds2 := takeDigits (rest.dropWhile jsIsWs)
          if ds2 = [] then [] else [ds.length + w1 + 1 + w2 + ds2.length]
        else []
      | [] => []
    ladders ++ tight ++ spaced

/-- Unit vocabulary of the legacy movement patterns,
\d+|lbs|kg|cal|m|ft|in|meters?|feet? as a full-token match (case
insensitive). The regex alternatives meters? and feet? make the final
letters optional, hence meter/meters and fee/feet. -/
def isUnitTok (w : List Char) : Bool :=
  (w ≠ [] && w.all isDigitC) ||
    elemLowerIn w ["lbs", "kg", "cal", "m", "ft", "in", "meter", "meters", "fee", "feet"]

/-- Match \s+(.+?)\s+(unit)$ against rest, with the JS order: the leading
\s+ greedy (longest first), the lazy exercise shortest first, and the final
\s+ then the unit running to the end of the string. Returns the captured
exercise and unit. -/
def legacyUnitRest (rest : List Char) : Option (String × String) :=
  let maxW := (rest.takeWhile jsIsWs).length
  ((List.range maxW).map (maxW - ·)).findSome? (fun w =>
    let body := rest.drop w
    ((List.range body.length).map (· + 1)).findSome? (fun e =>
      let ex := body.take e
      let after := body.drop e
      let w2 := (after.takeWhile jsIsWs).length
      if 1 ≤ w2 && isUnitTok (after.drop w2) && after.drop w2 ≠ [] then
        some ((⟨ex⟩ : String), (⟨after.drop w2⟩ : String))
      else none))

/-- Legacy pattern 1, ^(amount)\s+(.+?)\s+(unit)$/i, returning
(amount, exercise, unit). -/
def legacyP1 (l : List Char) : Option (String × String × String) :=
  (amountPrefixLens true l).findSome? (fun alen =>
    match legacyUnitRest (l.drop alen) with
    | some (ex, u) => some ((⟨l.take alen⟩ : String), ex, u)
    | none => none)

/-- Legacy pattern 2, ^(amount)\s+(.+)$/i, returning (amount, exercise). -/
def legacyP2 (l : List Char) : Option (String × String) :=
  (amountPrefixLens true l).findSome? (fun alen =>
    let rest := l.drop alen
    let maxW := (rest.takeWhile jsIsWs).length
    ((List.range maxW).map (maxW - ·)).findSome? (fun w =>
      let ex := rest.drop w
      if 1 ≤ w && ex ≠ [] then
        some ((⟨l.take alen⟩ : String), (⟨ex⟩ : String))
      else none))

/-- Suffix unit peel of the legacy parser,
match(/\s+(\d+|lbs|kg|cal|m|ft|in|meters?|feet?)$/i); returns the prefix
before the matched whitespace and the captured unit. -/
def unitPeel : List Char → Option (List Char × String)
  | [] => none
  | c :: cs =>
    if jsIsWs c then
      let rest := (c :: cs).dropWhile jsIsWs
      if rest ≠ [] && isUnitTok rest then some ([], (⟨rest⟩ : String))
      else
        match unitPeel cs with
        | some (pre, u) => some (c :: pre, u)
        | none => none
    else
      match unitPeel cs with
      | some (pre, u) => some (c :: pre, u)
      | none => none

/-! ### Pattern helpers of the movement and score passes -/

/-- Movement-pass header words, ^(workout|score|rounds?|sets?|time|reps?)$/i
as a full match of the first column. -/
def headerWordMovement (s : String) : Bool :=
  elemLowerIn s.data
    ["workout", "score", "round", "rounds", "set", "sets", "time", "rep", "reps"]

/-- Does \d+\s*\+\s*\d+ occur anywhere in l? -/
def plusPatternAt (l : List Char) : Bool :=
  let ds := takeDigits l
  ds ≠ [] &&
    (let t := (l.drop ds.length).dropWhile jsIsWs
     match t with
     | '+' :: rest => (takeDigits (rest.dropWhile jsIsWs)) ≠ []
     | _ => false)

/-- Search for \d+\s*\+\s*\d+. -/
def plusPatternSearch (l : List Char) : Bool :=
  (findMapSuffix (fun t => if plusPatternAt t then some () else none) l).isSome

/-- Position matcher for rounds?\s*\+\s*\d+\s*reps?/i. -/
def roundsRepsAt (l : List Char) : Bool :=
  startsWithCI "round".data l &&
    (let t1 := l.drop 5
     let cands :=
       if t1.head? == some 's' || t1.head? == some 'S' then [t1.drop 1, t1]
       else [t1]
     cands.any (fun u =>
       match u.dropWhile jsIsWs with
       | '+' :: rest =>
         let t2 := rest.dropWhile jsIsWs
         let ds := takeDigits t2
         ds ≠ [] &&
           startsWithCI "rep".data ((t2.drop ds.length).dropWhile jsIsWs)
       | _ => false))

/-- Search for rounds?\s*\+\s*\d+\s*reps?/i. -/
def roundsRepsSearch (l : List Char) : Bool :=
  (findMapSuffix (fun t => if roundsRepsAt t then some () else none) l).isSome

/-- Anchored keyword match ^(rest|repeat|then|and)/i, returning the matched
keyword in lower case (the source always lower-cases the capture before
using it). -/
def restKeyword (l : List Char) : Option String :=
  if startsWithCI "rest".data l then some "rest"
  else if startsWithCI "repeat".data l then some "repeat"
  else if startsWithCI "then".data l then some "then"
  else if startsWithCI "and".data l then some "and"
  else none

/-- Score-pass header line, ^(score|results?|time|reps?|rounds?)\s*\|?$/i as
a full match of the joined line. -/
def headerWordScore (l : List Char) : Bool :=
  ["score", "result", "results", "time", "rep", "reps", "round", "rounds"].any
    (fun w =>
      startsWithCI w.data l &&
        (let t := (l.drop w.length).dropWhile jsIsWs
         t == [] || t == ['|']))

/-- Full-string match of ^\d+[a-zA-Z]*$. -/
def digitsLettersFull (l : List Char) : Bool :=
  let ds := takeDigits l
  ds ≠ [] && (l.drop ds.length).all isLetterC

/-- Full-string match of ^\d+$. -/
def allDigitsFull (l : List Char) : Bool :=
  let ds := takeDigits l
  ds ≠ [] && l.drop ds.length == []

/-- Full-string match of the date pattern. -/
def dateFull (l : List Char) : Bool :=
  dateAt l == some l.length

/-- Score-pass unit words, ^(cal|lbs|kg|min|sec)$/i. -/
def unitWordScore (s : String) : Bool :=
  elemLowerIn s.data ["cal", "lbs", "kg", "min", "sec"]

/-- Does the string start with ^\d+[a-zA-Z] (digits immediately followed by
a letter)? With the greedy/backtracking semantics this holds exactly when
the maximal leading digit run is non-empty and followed by a letter. -/
def startsDigitsThenLetter (l : List Char) : Bool :=
  let ds := takeDigits l
  ds ≠ [] &&
    (match (l.drop ds.length).head? with
     | some c => isLetterC c
     | none => false)

/-- Does the string end with [a-zA-Z]\d+$ (a letter immediately before the
trailing digit run)? -/
def endsLetterThenDigits (l : List Char) : Bool :=
  let r := l.reverse
  let ds := takeDigits r
  ds ≠ [] &&
    (match (r.drop ds.length).head? with
     | some c => isLetterC c
     | none => false)

/-- Round/set label ^(round|set)\s+(\d+):?\s*(.*)/i, returning
(isSet, index, rest of the line). -/
def roundLabelProse (l : List Char) : Option (Bool × Nat × String) :=
  let go (isSet : Bool) (after : List Char) : Option (Bool × Nat × String) :=
    let w := (after.takeWhile jsIsWs).length
    if w = 0 then none
    else
      let t := after.drop w
      let ds := takeDigits t
      if ds = [] then none
      else
        let t2 := t.drop ds.length
        let t3 := if t2.head? == some ':' then t2.drop 1 else t2
        some (isSet, digitsToNat ds, (⟨t3.dropWhile jsIsWs⟩ : String))
  if startsWithCI "round".data l then go false (l.drop 5)
  else if startsWithCI "set".data l then go true (l.drop 3)
  else none

/-- Round/set label in grid form, ^(round|set)\s*\|\s*(\d+)\s*\|\s*(.*)/i. -/
def roundLabelGrid (l : List Char) : Option (Bool × Nat × String) :=
  let go (isSet : Bool) (after : List Char) : Option (Bool × Nat × String) :=
    match after.dropWhile jsIsWs with
    | '|' :: r1 =>
      let t := r1.dropWhile jsIsWs
      let ds := takeDigits t
      if ds = [] then none
      else
        match (t.drop ds.length).dropWhile jsIsWs with
        | '|' :: r2 => some (isSet, digitsToNat ds, (⟨r2.dropWhile jsIsWs⟩ : String))
        | _ => none
    | _ => none
  if startsWithCI "round".data l then go false (l.drop 5)
  else if startsWithCI "set".data l then go true (l.drop 3)
  else none

/-- The round/set label match of the score pass: the prose regex, or else
the grid regex. -/
def roundLabelMatch (l : List Char) : Option (Bool × Nat × String) :=
  match roundLabelProse l with
  | some r => some r
  | none => roundLabelGrid l

/-- Prose reps capture, (\d+)\s*(?:rounds?)?\s*(?:\+\s*)?(\d+)?\s*(?:reps?)?/i:
only the leading digit group is mandatory, so the leftmost match starts at
the first digit; returns the first capture and the optional second. -/
def proseRepsCapture : List Char → Option (Nat × Option Nat)
  | [] => none
  | c :: cs =>
    if isDigitC c then
      let ds := takeDigits (c :: cs)
      let t := ((c :: cs).drop ds.length).dropWhile jsIsWs
      let t :=
        if startsWithCI "round".data t then
          let t1 := t.drop 5
          if t1.head? == some 's' || t1.head? == some 'S' then t1.drop 1 else t1
        else t
      let t := t.dropWhile jsIsWs
      let t := if t.head? == some '+' then (t.drop 1).dropWhile jsIsWs else t
      let ds2 := takeDigits t
      some (digitsToNat ds, if ds2 = [] then none else some (digitsToNat ds2))
    else proseRepsCapture cs

/-- Prose weight capture, (\d+)\s*(lbs|kg)?/i: leftmost digit run and the
optional unit as it appears in the input. -/
def proseWeightCapture : List Char → Option (Nat × Option String)
  | [] => none
  | c :: cs =>
    if isDigitC c then
      let ds := takeDigits (c :: cs)
      let t := ((c :: cs).drop ds.length).dropWhile jsIsWs
      let unit : Option String :=
        if startsWithCI "lbs".data t then some (⟨t.take 3⟩ : String)
        else if startsWithCI "kg".data t then some (⟨t.take 2⟩ : String)
        else none
      some (digitsToNat ds, unit)
    else proseWeightCapture cs

/-- First digit run anywhere in the string, match(/(\d+)/). -/
def firstDigitRun : List Char → Option Nat
  | [] => none
  | c :: cs =>
    if isDigitC c then some (digitsToNat (takeDigits (c :: cs)))
    else firstDigitRun cs

/-- Replace the first occurrence of the pattern (a plain string, as JS
replace with a string argument) by rep. -/
def replaceFirstL (pat rep : List Char) : List Char → List Char
  | [] => []
  | c :: cs =>
    if startsWithL pat (c :: cs) then rep ++ (c :: cs).drop pat.length
    else c :: replaceFirstL pat rep cs

/-- String version of replaceFirstL. -/
def replaceFirstS (pat rep s : String) : String :=
  ⟨replaceFirstL pat.data rep.data s.data⟩

/-- Does the string start with ^@\s*\| (at sign, optional whitespace, then a
pipe)? -/
def atPipeStart (l : List Char) : Bool :=
  match l with
  | '@' :: r => (r.dropWhile jsIsWs).head? == some '|'
  | _ => false

/-- Digits, colon, digits (the capture groups of the rest-duration regex),
anchored at the head. -/
def colonDigitsAt (t : List Char) : Option (Nat × Nat) :=
  let ds := takeDigits t
  if ds = [] then none
  else
    match t.drop ds.length with
    | ':' :: r =>
      let ds2 := takeDigits r
      if ds2 = [] then none else some (digitsToNat ds, digitsToNat ds2)
    | _ => none

/-- Position matcher for (?:rest\s+|\|\s*)(\d+):(\d+)/i. -/
def restDurAt (l : List Char) : Option (Nat × Nat) :=
  let b1 :=
    if startsWithCI "rest".data l then
      let after := l.drop 4
      if (after.takeWhile jsIsWs).length ≥ 1 then
        colonDigitsAt (after.dropWhile jsIsWs)
      else none
    else none
  match b1 with
  | some r => some r
  | none =>
    match l with
    | '|' :: r => colonDigitsAt (r.dropWhile jsIsWs)
    | _ => none

/-- Leftmost rest-duration capture. -/
def restDurFind (l : List Char) : Option (Nat × Nat) :=
  findMapSuffix restDurAt l

/-- Position matcher for rest\s+1:1/i. -/
def restRatioAt (l : List Char) : Bool :=
  startsWithCI "rest".data l &&
    (let after := l.drop 4
     (after.takeWhile jsIsWs).length ≥ 1 &&
       startsWithL "1:1".data (after.dropWhile jsIsWs))

/-- Search for rest\s+1:1/i. -/
def restRatioSearch (l : List Char) : Bool :=
  (findMapSuffix (fun t => if restRatioAt t then some () else none) l).isSome

/-! ## Data model (src/types and the local structures of the extractor) -/

/-- Kind of a score. -/
inductive ScoreType where
  | time
  | reps
  | weight
deriving DecidableEq, BEq, Repr

/-- Kind-specific numeric metadata of a score; absent JS fields (undefined,
and NaN where it can arise) are none. -/
structure ScoreMeta where
  timeInSeconds : Option Int := none
  rounds : Option Int := none
  repsIntoNextRound : Option Int := none
  totalReps : Option Int := none
  weight : Option Int := none
  unit : Option String := none
  startTime : Option String := none
  stopTime : Option String := none
  roundTime : Option Int := none
deriving DecidableEq, Repr

/-- One score produced by the score pass. -/
structure ScoreElement where
  name : String
  type : ScoreType
  value : String
  metadata : ScoreMeta
deriving DecidableEq, Repr

/-- One element produced by the movement pass: a movement
(amount, exercise, optional unit) or a descriptive line
(text, kind, optional duration in seconds). -/
inductive WorkoutElement where
  | movement (amount exercise : String) (unit : Option String)
  | descriptive (text : String) (dkind : Option String) (duration : Option Nat)
deriving DecidableEq, Repr

/-- One OCR token with its confidence. -/
structure OCRWord where
  text : String
  confidence : ℚ
deriving DecidableEq, Repr

/-- Output of the text-extraction step consumed by the parser. -/
structure OCRData where
  text : String
  words : List OCRWord
  lines : List String
deriving DecidableEq, Repr

/-- Final output of the parser. -/
structure WorkoutExtraction where
  title : String
  description : String
  workout : List WorkoutElement
  score : List ScoreElement
  confidence : ℚ
  privacy : String
deriving DecidableEq, Repr

/-- Metadata extracted from the title line. -/
structure TitleData where
  title : String
  timeCap : Option Nat := none
  emomPeriod : Option Nat := none
  setsInfo : Option (Nat × Nat) := none
deriving DecidableEq, Repr

/-! ## Line Normalizer (cleanGeminiPipeOutput) -/

/-- State machine of replPipeWs. afterPipe records that the previous
remembered character was a pipe (its trailing whitespace is absorbed);
pend holds, reversed, a pending whitespace run that is dropped when a pipe
follows it and emitted otherwise. -/
def replPipeWsAux (afterPipe : Bool) (pend : List Char) : List Char → List Char
  | [] => pend.reverse
  | c :: cs =>
    if c = '|' then '|' :: replPipeWsAux true [] cs
    else if jsIsWs c then
      if afterPipe then replPipeWsAux true [] cs
      else replPipeWsAux false (c :: pend) cs
    else pend.reverse ++ c :: replPipeWsAux false [] cs

/-- First step of the normalizer, replace(/\s*\|\s*/g, '|'): every whitespace
run adjacent to a pipe is absorbed into it. -/
def replPipeWs (l : List Char) : List Char :=
  replPipeWsAux false [] l

/-- State machine of collapsePipes; the flag records whether the previous
character was a pipe (further pipes of the run are dropped). -/
def collapsePipesAux (prevPipe : Bool) : List Char → List Char
  | [] => []
  | c :: cs =>
    if c = '|' then
      if prevPipe then collapsePipesAux true cs
      else '|' :: collapsePipesAux true cs
    else c :: collapsePipesAux false cs

/-- Second step, replace(/\|+/g, '|'): collapse pipe runs. -/
def collapsePipes (l : List Char) : List Char :=
  collapsePipesAux false l

/-- Step four, replace(/^\|\s*/, ''). -/
def stripLeadPipeWs (l : List Char) : List Char :=
  match l with
  | '|' :: r => r.dropWhile jsIsWs
  | _ => l

/-- Step four continued, replace(/\s*\|$/, ''). -/
def stripTrailWsPipe (l : List Char) : List Char :=
  match l.reverse with
  | '|' :: r => (r.dropWhile jsIsWs).reverse
  | _ => l

/-- The per-line body of cleanGeminiPipeOutput: absorb whitespace around
pipes, collapse pipe runs, split on pipes, trim the parts and drop the empty
ones, rejoin them with " | ", strip a leading or trailing pipe, collapse
whitespace runs and trim. -/
def cleanLine (l : List Char) : List Char :=
  let l1 := replPipeWs l
  let l2 := collapsePipes l1
  let parts := ((splitOnC '|' l2).map jsTrimL).filter (· ≠ [])
  let l3 := joinWithL " | ".data parts
  let l4 := stripTrailWsPipe (stripLeadPipeWs l3)
  let l5 := collapseWsL l4
  jsTrimL l5

/-- cleanGeminiPipeOutput: normalize every line of the raw text. -/
def cleanGeminiPipeOutput (rawText : String) : String :=
  ⟨joinWithL ['\n'] ((splitOnC '\n' rawText.data).map cleanLine)⟩

/-! ## Grid Builder -/

/-- parseLineToGrid: trim the line, split it on pipes into trimmed non-empty
cells; a blank line or a line of pipes yields no grid line. -/
def parseLineToGrid (line : String) : Option (List String) :=
  let trimmed := jsTrimL line.data
  if trimmed = [] then none
  else
    let parts := ((splitOnC '|' trimmed).map jsTrimL).filter (· ≠ [])
    if parts = [] then none else some (parts.map (fun p => (⟨p⟩ : String)))

/-- validateGridColumns: with a minCount, a lower bound on the column count,
otherwise an exact count. -/
def validateGridColumns (line : List String) (expectedCount : Nat) (minCount : Option Nat) : Bool :=
  match minCount with
  | some m => line.length ≥ m
  | none => line.length = expectedCount

/-- getGridColumn with the empty-string fallback. -/
def getGridColumn (line : List String) (index : Nat) : String :=
  line.getD index ""

/-- buildGrid: one grid line per input line that survives parseLineToGrid. -/
def buildGrid (allLines : List String) : List (List String) :=
  allLines.filterMap parseLineToGrid

/-- getAllLines: trimmed, non-blank OCR lines. -/
def getAllLines (ocrData : OCRData) : List String :=
  (ocrData.lines.map jsTrimS).filter (fun t => t.data ≠ [])

/-! ## Title Parser -/

/-- The title-cleaning prefix of parseTitle: join the first grid line with
spaces (falling back to "Workout" when missing or empty), strip pipes,
collapse whitespace, trim, repair the pound-sign OCR substitution, and fall
back to "Workout" when the result is under two characters. -/
def cleanedTitle (grid : List (List String)) : String :=
  let titleLine : String :=
    match grid.head? with
    | some g =>
      let j := " ".intercalate g
      if j = "" then "Workout" else j
    | none => "Workout"
  let t0 : List Char := jsTrimL (collapseWsL (replaceAllC '|' ' ' titleLine.data))
  let t1 : List Char := replaceAllC '£' 'E' t0
  if t1 = [] || t1.length < 2 then "Workout" else ⟨t1⟩

/-- parseTitle: clean the title line, then extract the time cap, EMOM period
and sets info. -/
def parseTitle (grid : List (List String)) : TitleData :=
  let title : String := cleanedTitle grid
  let titleLower : List Char := lowerL title.data
  let timeCap : Option Nat := (timeCapFind titleLower).map (· * 60)
  let emomPeriod : Option Nat :=
    match edMomFind title.data with
    | some ds => some (digitsToNat ds)
    | none =>
      match minEmomFind titleLower with
      | some n => some n
      | none => if containsSub "emom".data titleLower then some 1 else none
  let setsInfo : Option (Nat × Nat) := setsFind titleLower
  -- The source then re-assigns result.title := title when the cleaned title
  -- is a bare workout-type code (^E\d+MOM$ or ^(AMRAP|EMOM|CHIPPER)$), which
  -- is a no-op; the informative replacement happens later, in the caller.
  { title := if title = "" then "Workout" else title,
    timeCap := timeCap, emomPeriod := emomPeriod, setsInfo := setsInfo }

/-! ## Movement Parser -/

/-- parseRestDuration: an (\d+):(\d+) group after "rest " or a pipe gives
minutes and seconds; otherwise a literal "rest 1:1" gives 60 seconds. -/
def parseRestDuration (text : String) : Option Nat :=
  match restDurFind text.data with
  | some (m, s) => some (m * 60 + s)
  | none => if restRatioSearch text.data then some 60 else none

/-- Descriptive kind for a rest keyword (always one of the four). -/
def restKindOf (kw : String) : Option String :=
  if kw = "rest" then some "rest"
  else if kw = "repeat" then some "repeat"
  else if kw = "then" || kw = "and" then some "instruction"
  else none

/-- JS duration || undefined: both null and 0 become undefined. -/
def durOrUndef (d : Option Nat) : Option Nat :=
  match d with
  | some 0 => none
  | some d => some d
  | none => none

/-- Movement exercise names used by the description generator and the title
fallback: the exercise fields of the movement elements, in order. -/
def movementExercises (movements : List WorkoutElement) : List String :=
  movements.filterMap (fun el =>
    match el with
    | .movement _ ex _ => if ex ≠ "" then some ex else none
    | _ => none)

/-- Per-line classifier of parseMovements, in the priority order of the
source: header skip, score-shaped skips (plus pattern, grid plus, date,
rounds-plus-reps wording), rest/descriptive, at-sign instruction, bare-time
skip, grid amount/exercise/unit, legacy free-text patterns, bare-exercise
fallback. -/
def movementStep (gridLine : List String) : Option WorkoutElement :=
  if gridLine = [] then none
  else
    let fc := getGridColumn gridLine 0
    let trimmed : String :=
      " ".intercalate (gridLine.filter (fun col => jsTrimL col.data ≠ []))
    if headerWordMovement fc then none
    else if plusPatternSearch trimmed.data ||
        (gridLine.length ≥ 3 && getGridColumn gridLine 1 == "+" &&
          (jsParseInt (getGridColumn gridLine 0)).isSome &&
          (jsParseInt (getGridColumn gridLine 2)).isSome) then none
    else if dateSearch trimmed.data then none
    else if roundsRepsSearch trimmed.data then none
    else
      match restKeyword trimmed.data with
      | some kw =>
        let d0 := parseRestDuration trimmed
        let duration :=
          if (d0 = none || d0 = some 0) && gridLine.length ≥ 3 then
            let timeCol :=
              if getGridColumn gridLine 2 ≠ "" then getGridColumn gridLine 2
              else getGridColumn gridLine 1
            if timeCol ≠ "" then parseRestDuration ("rest " ++ timeCol) else d0
          else d0
        let cleanText : String :=
          " ".intercalate (gridLine.filter (fun col => jsTrimL col.data ≠ []))
        some (.descriptive cleanText (restKindOf kw) (durOrUndef duration))
      | none =>
        if fc == "@" || atPipeStart trimmed.data then
          let duration := (colonTimeFind trimmed.data).map (fun p => p.1 * 60 + p.2)
          some (.descriptive trimmed (some "instruction") duration)
        else if (gridLine.length = 1 ||
              (gridLine.length = 2 && jsTrimL (getGridColumn gridLine 1).data = [])) &&
            timeColonFull fc.data then none
        else
          -- Grid format amount | exercise | unit; the inner some none means
          -- the source's continue (line consumed, nothing emitted), none
          -- means fall through to the legacy patterns.
          let gridRes : Option (Option WorkoutElement) :=
            if gridLine.length ≥ 2 then
              let amount := getGridColumn gridLine 0
              let exercise := getGridColumn gridLine 1
              let unit := getGridColumn gridLine 2
              if jsTrimL exercise.data = [] then some none
              else if amountFull amount.data then
                if elemLowerIn amount.data ["rest", "repeat", "then", "and"] then
                  -- unreachable in fact (an amount is numeric), kept faithful
                  let cleanText : String :=
                    " ".intercalate (gridLine.filter (fun col => jsTrimL col.data ≠ []))
                  let kw := lowerS amount
                  some (some (.descriptive cleanText (restKindOf kw)
                    (durOrUndef (parseRestDuration cleanText))))
                else if exercise ≠ "" && jsTrimL exercise.data ≠ [] &&
                    !exercise.data.contains '|' then
                  some (some (.movement (jsTrimS amount) (normalizeMovementName exercise)
                    (if unit = "" then none else some unit)))
                else none
              else none
            else none
          match gridRes with
          | some r => r
          | none =>
            -- Legacy free-text fallbacks.
            match restKeyword trimmed.data with
            | some kw =>
              some (.descriptive trimmed (restKindOf kw)
                (durOrUndef (parseRestDuration trimmed)))
            | none =>
              let mk (amount exercise : String) (unit : Option String) : WorkoutElement :=
                let exerciseName := jsTrimS exercise
                let unitValue : Option String := unit.map jsTrimS
                let peeled :=
                  match unitValue with
                  | some _ => (exerciseName, unitValue)
                  | none =>
                    match unitPeel exerciseName.data with
                    | some (pre, u) => (jsTrimS (⟨pre⟩ : String), some u)
                    | none => (exerciseName, none)
                .movement (jsTrimS amount) (normalizeMovementName peeled.1) peeled.2
              match legacyP1 trimmed.data with
              | some (amount, exercise, unit) => some (mk amount exercise (some unit))
              | none =>
                match legacyP2 trimmed.data with
                | some (amount, exercise) => some (mk amount exercise none)
                | none =>
                  if trimmed.length > 3 then
                    some (.movement "1" (normalizeMovementName trimmed) none)
                  else none

/-- parseMovements: classify every non-title grid line. -/
def parseMovements (grid : List (List String)) : List WorkoutElement :=
  (grid.drop 1).filterMap movementStep

/-! ## Score Parser -/

/-- Branch outcomes of the score classifier chain: the updated counters and
the pushed score. -/
abbrev ScoreHit := (Nat × Nat) × ScoreElement

/-- The classifier chain of parseScores applied to the working grid (after
any round/set label) and the joined original line, threading
(roundIndex, setIndex). Branch order as in the source: grid time, grid
rounds+reps, single bare number, grid weight, prose start/stop, prose time,
prose reps, prose weight. -/
def scoreBody (isRoundBased : Bool) (timeCap : Option Nat) (ri si : Nat)
    (wg : List String) (trimmed : String) : (Nat × Nat) × Option ScoreElement :=
  let col0 := getGridColumn wg 0
  let col1 := getGridColumn wg 1
  let col2 := getGridColumn wg 2
  let gridTime : Option ScoreHit :=
    if wg.length > 0 then
      let timeStr := jsTrimL (stripDatesG col0.data)
      let hasAttached := startsDigitsThenLetter timeStr || endsLetterThenDigits timeStr
      if !hasAttached && timePatSearch timeStr then
        match parseTimeToSeconds (⟨timeStr⟩ : String) with
        | some t =>
          if t < 3600 then
            let name :=
              if si > 0 then "Set " ++ toString si
              else if ri = 0 && !isRoundBased then "Finish Time"
              else "Round " ++ toString (ri + 1)
            some ((ri + 1, si),
              { name := name, type := .time, value := formatSecondsToTime t,
                metadata := { timeInSeconds := some t } })
          else none
        | none => none
      else none
    else none
  let gridReps : Option ScoreHit :=
    if wg.length > 0 && validateGridColumns wg 3 (some 3) && col1 == "+" then
      let rounds := jsParseInt col0
      let repsIntoNext : Int := (jsParseInt col2).getD 0
      let name :=
        if si > 0 then "Set " ++ toString si
        else if ri = 0 then "Total"
        else "Round " ++ toString ri
      let roundsStr := match rounds with | some v => toString v | none => "NaN"
      let md : ScoreMeta :=
        { rounds := rounds, repsIntoNextRound := some repsIntoNext,
          totalReps := rounds.map (· + repsIntoNext) }
      some ((ri + 1, si),
        { name := name, type := .reps,
          value := roundsStr ++ " + " ++ toString repsIntoNext, metadata := md })
    else none
  let gridSingle : Option ScoreHit :=
    if wg.length > 0 && wg.length = 1 && col0 ≠ "" then
      match jsParseInt col0 with
      | some num =>
        let asReps : ScoreHit :=
          let name :=
            if si > 0 then "Set " ++ toString si
            else if timeCap.isSome then "Time Cap"
            else if ri = 0 then "Total"
            else "Round " ++ toString ri
          ((ri + 1, si),
            { name := name, type := .reps, value := toString num,
              metadata := { totalReps := some num } })
        match parseTimeToSeconds col0 with
        | some t =>
          if t < 3600 && num ≥ 60 then
            let name :=
              if si > 0 then "Set " ++ toString si
              else if ri = 0 then "Finish Time"
              else "Round " ++ toString ri
            some ((ri + 1, si),
              { name := name, type := .time, value := formatSecondsToTime t,
                metadata := { timeInSeconds := some t } })
          else some asReps
        | none => some asReps
      | none => none
    else none
  let gridWeight : Option ScoreHit :=
    if wg.length > 0 && validateGridColumns wg 2 (some 2) then
      match firstDigitRun col0.data with
      | some w =>
        if w > 50 then
          let md : ScoreMeta :=
            { weight := some (w : Int),
              unit := some (if col1 = "" then "lbs" else col1) }
          some ((ri, si),
            { name := if si > 0 then "Set " ++ toString si else "Weight",
              type := .weight,
              value := jsTrimS (⟨replaceAllC '|' ' ' trimmed.data⟩ : String),
              metadata := md })
        else none
      | none => none
    else none
  let startStop : Option ScoreHit :=
    match startStopFind trimmed.data with
    | some (m1, s1, m2, s2) =>
      let startTime : String := (⟨m1⟩ : String) ++ ":" ++ (⟨s1⟩ : String)
      let stopTime : String := (⟨m2⟩ : String) ++ ":" ++ (⟨s2⟩ : String)
      match parseTimeToSeconds startTime, parseTimeToSeconds stopTime with
      | some a, some b =>
        let roundTime := b - a
        let md : ScoreMeta :=
          { timeInSeconds := some roundTime,
            startTime := some startTime, stopTime := some stopTime,
            roundTime := some roundTime }
        some ((ri + 1, si),
          { name := "Round " ++ toString (if ri = 0 then 1 else ri),
            type := .time, value := formatSecondsToTime roundTime,
            metadata := md })
      | _, _ => none
    | none => none
  let proseTime : Option ScoreHit :=
    if timePatSearch trimmed.data then
      match parseTimeToSeconds trimmed with
      | some t =>
        if t < 3600 then
          let name :=
            if si > 0 then "Set " ++ toString si
            else if ri = 0 then "Finish Time"
            else "Round " ++ toString ri
          some ((ri + 1, si),
            { name := name, type := .time, value := formatSecondsToTime t,
              metadata := { timeInSeconds := some t } })
        else none
      | none => none
    else none
  let proseReps : Option ScoreHit :=
    let scoreLine : String :=
      if dateSearch trimmed.data then jsTrimS (⟨stripFirstDate trimmed.data⟩ : String)
      else trimmed
    match proseRepsCapture scoreLine.data with
    | some (firstNum, secondNum) =>
      let hasRound := containsSub "round".data (lowerL trimmed.data)
      let fields : Option Int × Option Int × Int :=
        if hasRound then
          (some (firstNum : Int), some ((secondNum.getD 0 : Nat) : Int),
            ((firstNum + secondNum.getD 0 : Nat) : Int))
        else
          match secondNum with
          | some s2 => (some (firstNum : Int), some (s2 : Int), ((firstNum + s2 : Nat) : Int))
          | none =>
            if hasRound || firstNum < 20 then
              (some (firstNum : Int), none, (firstNum : Int))
            else (none, none, (firstNum : Int))
      let name :=
        if si > 0 then "Set " ++ toString si
        else if ri = 0 then "Total"
        else "Round " ++ toString ri
      let md : ScoreMeta :=
        { rounds := fields.1, repsIntoNextRound := fields.2.1,
          totalReps := some fields.2.2 }
      some ((ri + 1, si),
        { name := name, type := .reps, value := trimmed, metadata := md })
    | none => none
  let proseWeight : Option ScoreHit :=
    match proseWeightCapture trimmed.data with
    | some (w, unitOpt) =>
      if w > 50 then
        let md : ScoreMeta :=
          { weight := some (w : Int), unit := some (unitOpt.getD "lbs") }
        some ((ri, si),
          { name := if si > 0 then "Set " ++ toString si else "Weight",
            type := .weight, value := trimmed, metadata := md })
      else none
    | none => none
  match gridTime <|> gridReps <|> gridSingle <|> gridWeight <|> startStop <|>
      proseTime <|> proseReps <|> proseWeight with
  | some (st, sc) => (st, some sc)
  | none => ((ri, si), none)

/-- One line of the score pass: skips (header, descriptive, at sign,
movement-shaped line), the round/set label handling, then the classifier
chain. -/
def scoreStep (isRoundBased : Bool) (timeCap : Option Nat) (st : Nat × Nat)
    (gridLine : List String) : (Nat × Nat) × Option ScoreElement :=
  let (roundIndex, setIndex) := st
  if gridLine = [] then (st, none)
  else
    let trimmed : String :=
      " ".intercalate (gridLine.filter (fun col => jsTrimL col.data ≠ []))
    if headerWordScore trimmed.data then (st, none)
    else if (restKeyword trimmed.data).isSome then (st, none)
    else
      let firstColumn := getGridColumn gridLine 0
      if firstColumn == "@" || atPipeStart trimmed.data then (st, none)
      else if gridLine.length ≥ 2 &&
          (let col0 := getGridColumn gridLine 0
           let col1 := getGridColumn gridLine 1
           digitsLettersFull col0.data && col1 ≠ "" && !allDigitsFull col1.data &&
             col1 ≠ "+" && !timeColonFull col1.data && !dateFull col1.data &&
             col1.length > 1 && !unitWordScore col1) then (st, none)
      else
        match roundLabelMatch trimmed.data with
        | some (isSet, n, rest) =>
          let st1 : Nat × Nat := if isSet then (0, n) else (n, setIndex)
          if jsTrimS rest ≠ "" then
            match parseLineToGrid (jsTrimS rest) with
            | some restGrid =>
              if restGrid.length > 0 then
                scoreBody isRoundBased timeCap st1.1 st1.2 restGrid trimmed
              else (st1, none)
            | none => (st1, none)
          else (st1, none)
        | none => scoreBody isRoundBased timeCap roundIndex setIndex gridLine trimmed

/-- After classifying all lines: if exactly one time-kind score exists and it
was named "Round 1", rename it to "Finish Time" (the source mutates that one
score; mapping over the time scores is the same because there is exactly
one). -/
def renameLoneTime (scores : List ScoreElement) : List ScoreElement :=
  let timeScores := scores.filter (fun s => s.type == ScoreType.time)
  if timeScores.length = 1 &&
      (match timeScores.head? with
       | some s => s.name == "Round 1"
       | none => false) then
    scores.map (fun s =>
      if s.type == ScoreType.time then { s with name := "Finish Time" } else s)
  else scores

/-- parseScores: thread the round/set counters over the non-title grid
lines, then apply the lone-time rename. -/
def parseScores (grid : List (List String)) (timeCap : Option Nat) : List ScoreElement :=
  let scoreGrids := grid.drop 1
  let isRoundBased := scoreGrids.length > 2
  let out := scoreGrids.foldl
    (fun (acc : (Nat × Nat) × List ScoreElement) line =>
      let (st, sc) := scoreStep isRoundBased timeCap acc.1 line
      (st, acc.2 ++ sc.toList))
    ((0, 0), [])
  renameLoneTime out.2

/-! ## Type Detector, Description Generator, Confidence Scorer -/

/-- detectWorkoutType: title keywords in source order, then structural
inference. -/
def detectWorkoutType (title : String) (movements : List WorkoutElement)
    (scores : List ScoreElement) : String :=
  let titleLower := lowerS title
  if includesS "amrap" titleLower then "AMRAP"
  else if (edMomFind titleLower.data).isSome then "EMOM"
  else if includesS "emom" titleLower then "EMOM"
  else if includesS "chipper" titleLower then "Chipper"
  else if includesS "rounds for time" titleLower then "Rounds for Time"
  else if includesS "for time" titleLower then "For Time"
  else if includesS "for reps" titleLower then "For Reps"
  else
    let liftCheck : Bool :=
      movements.length = 1 &&
        (match movements.head? with
         | some (.movement amount _ _) => amount ≠ "" && amount.data.contains 'x'
         | _ => false)
    if liftCheck then "Lift"
    else if scores.length = 1 &&
        (match scores.head? with
         | some s => s.type == ScoreType.time
         | none => false) then "For Time"
    else if scores.length = 1 &&
        (match scores.head? with
         | some s => s.type == ScoreType.reps
         | none => false) then "For Reps"
    else "Unknown"

/-- generateDescription: fill the type-specific template with up to three
movement names (JS replace with a plain string replaces the first
occurrence). -/
def generateDescription (workoutType : String) (movements : List WorkoutElement) : String :=
  let movementNames := (movementExercises movements).take 3
  if movementNames.length = 0 then "A " ++ workoutType ++ " workout."
  else
    let template : String :=
      if workoutType = "AMRAP" then "A brutal AMRAP with {movement1} and {movement2}."
      else if workoutType = "EMOM" then "An {type} with high output in {movement1} and {movement2}."
      else if workoutType = "Chipper" then "A savage chipper that tested {movement1}, {movement2}, and {movement3}."
      else if workoutType = "Rounds for Time" then "A fast-paced {type} with {movement1} and {movement2}."
      else if workoutType = "Lift" then "Heavy {type} session with {movement1}."
      else if workoutType = "For Time" then "A {type} that pushed the limits with {movement1} and {movement2}."
      else if workoutType = "For Reps" then "A {type} that tested everything from {movement1} to {movement2}."
      else "A {type} with {movement1} and {movement2}."
    let d0 := replaceFirstS "{type}" workoutType template
    let d1 := replaceFirstS "{movement1}" ((movementNames.get? 0).getD "movements") d0
    let d2 := replaceFirstS "{movement2}" ((movementNames.get? 1).getD "movements") d1
    replaceFirstS "{movement3}" ((movementNames.get? 2).getD "movements") d2

/-- calculateConfidence: the weighted sum of average OCR word confidence
(the source divides the average by 100), parsing success and completeness,
over the rationals. -/
def calculateConfidence (ocrData : OCRData) (elements : List WorkoutElement)
    (scores : List ScoreElement) : ℚ :=
  let avgConfidence : ℚ :=
    if ocrData.words.length > 0 then
      (ocrData.words.foldl (fun sum w => sum + w.confidence) 0) /
        (ocrData.words.length : ℚ) / 100
    else 0.5
  let parsingSuccess : ℚ :=
    if elements.length > 0 || scores.length > 0 then 0.9 else 0.5
  let hasTitle := true
  let hasMovements := elements.length > 0
  let hasScores := scores.length > 0
  let completeness : ℚ :=
    (if hasTitle then (0.3 : ℚ) else 0) + (if hasMovements then (0.4 : ℚ) else 0) +
      (if hasScores then (0.3 : ℚ) else 0)
  avgConfidence * 0.4 + parsingSuccess * 0.3 + completeness * 0.3

/-- The final title improvement of parseWorkoutFromRawText: a bare E-code
title is rebuilt from its captured digits, and the "Workout" placeholder (or
a blank title) is replaced from the workout type and up to two movement
names. -/
def improveTitle (title : String) (workoutType : String)
    (movements : List WorkoutElement) : String :=
  if edMomFullAnchored title.data then
    let minutes : String :=
      match edMomFind title.data with
      | some ds => (⟨ds⟩ : String)
      | none => "1"
    "E" ++ minutes ++ "MOM"
  else if title = "Workout" || jsTrimS title = "" then
    let movementNames := (movementExercises movements).take 2
    if movementNames.length > 0 then
      workoutType ++ ": " ++ " + ".intercalate movementNames
    else workoutType ++ " Workout"
  else title

/-- The textLines local of parseWorkoutFromRawText: clean the pipe output,
split on newlines, trim, drop blank lines. -/
def textLinesOf (rawText : String) : List String :=
  ((splitOnC '\n' (cleanGeminiPipeOutput rawText).data).map
    (fun l => jsTrimS (⟨l⟩ : String))).filter (fun s => s.data ≠ [])

/-- The words local: every whitespace-separated token of every line, with
confidence 0.95. -/
def wordsOf (rawText : String) : List OCRWord :=
  (((textLinesOf rawText).map (fun lineText => jsSplitWs lineText)).flatten).map
    (fun w => { text := w, confidence := 0.95 })

/-- The ocrData local assembled from the cleaned lines. -/
def ocrDataOf (rawText : String) : OCRData :=
  { text := "\n".intercalate (textLinesOf rawText), words := wordsOf rawText,
    lines := textLinesOf rawText }

/-- The grid local: the grid built from all (trimmed, non-blank) lines. -/
def gridOf (rawText : String) : List (List String) :=
  buildGrid (getAllLines (ocrDataOf rawText))

/-- parseWorkoutFromRawText: the raw-text entry point. Cleans the pipe
output, splits into lines, forms OCR words with confidence 0.95 each, builds
the grid and runs title, movement, score, type, description and confidence,
then improves the title. -/
def parseWorkoutFromRawText (rawText : String) : WorkoutExtraction :=
  let grid := gridOf rawText
  let titleData := parseTitle grid
  let title := titleData.title
  let movements := parseMovements grid
  let scores := parseScores grid titleData.timeCap
  let workoutType := detectWorkoutType title movements scores
  let description := generateDescription workoutType movements
  let confidence := calculateConfidence (ocrDataOf rawText) movements scores
  let finalTitle := improveTitle title workoutType movements
  { title := finalTitle, description := description, workout := movements,
    score := scores, confidence := confidence, privacy := "public" }

/-- Modelled from the spec (amended structural clause), for comparison with
detectWorkoutType: title keywords in the spec order; then, structurally, an
element list consisting of exactly one movement whose amount contains an x
gives Lift, a score list consisting of exactly one score of kind time gives
For Time, of kind reps gives For Reps, anything else Unknown. -/
def detectWorkoutTypeSpec (title : String) (movements : List WorkoutElement)
    (scores : List ScoreElement) : String :=
  let t := lowerS title
  if includesS "amrap" t then "AMRAP"
  else if (edMomFind t.data).isSome || includesS "emom" t then "EMOM"
  else if includesS "chipper" t then "Chipper"
  else if includesS "rounds for time" t then "Rounds for Time"
  else if includesS "for time" t then "For Time"
  else if includesS "for reps" t then "For Reps"
  else
    let isLift : Bool :=
      match movements with
      | [WorkoutElement.movement a _ _] => a ≠ "" && a.data.contains 'x'
      | _ => false
    if isLift then "Lift"
    else
      match scores with
      | [s] =>
        if s.type == ScoreType.time then "For Time"
        else if s.type == ScoreType.reps then "For Reps"
        else "Unknown"
      | _ => "Unknown"

/-! ## Claim theorems -/

/-- Claim C3 (code bug, Scenario A evaluated on the code): parsing the lines
"AMRAP 10 min", "30 | Double Unders", "Rest | 1:00", "8 + 25" gives the
claimed title, movement and descriptive element, and one reps score named
"Total" — but its metadata records only totalReps = 8 with no rounds and no
repsIntoNext: the pipe-less line "8 + 25" is captured by the single-bare-
number branch (JS parseInt reads 8 and stops at the space) before the prose
rounds-plus-reps branch whose own comment lists "8 + 25" as an example. -/
theorem c3_scenarioA_eval :
    (parseWorkoutFromRawText "AMRAP 10 min\n30 | Double Unders\nRest | 1:00\n8 + 25").title
        = "AMRAP 10 min" ∧
    (parseWorkoutFromRawText "AMRAP 10 min\n30 | Double Unders\nRest | 1:00\n8 + 25").workout
        = [WorkoutElement.movement "30" "Double Unders" none,
           WorkoutElement.descriptive "Rest 1:00" (some "rest") (some 60)] ∧
    (parseWorkoutFromRawText "AMRAP 10 min\n30 | Double Unders\nRest | 1:00\n8 + 25").score
        = [{ name := "Total", type := ScoreType.reps, value := "8",
             metadata := { totalReps := some 8 } }] := by
  refine ⟨by decide, by decide, by decide⟩

/-- Claim C4, counterexample: for the single input line "8:00" the code
returns no scores at all (the first grid line is always consumed as the
title), so the claimed lone "Finish Time" score does not exist. -/
theorem c4_cex :
    (parseWorkoutFromRawText "8:00").score = [] ∧
    (parseWorkoutFromRawText "8:00").score.length ≠ 1 := by
  refine ⟨by decide, by decide⟩

/-- Claim C4 as amended: a time line yields the lone "Finish Time" score
with timeInSeconds = 480 only when it is not the title line, e.g. with a
preceding title line. -/
theorem c4_amended :
    (parseWorkoutFromRawText "Workout\n8:00").score
      = [{ name := "Finish Time", type := ScoreType.time, value := "8:00",
           metadata := { timeInSeconds := some 480 } }] := by
  decide

/-- Claim C2, counterexample: the single non-title line "Row 500" is emitted
by the movement pass (bare-exercise fallback) and also by the score pass
(prose reps rule), so one line is classified by both passes. -/
theorem c2_cex :
    (parseWorkoutFromRawText "Workout\nRow 500").workout
        = [WorkoutElement.movement "1" "Row 500" none] ∧
    (parseWorkoutFromRawText "Workout\nRow 500").score
        = [{ name := "Total", type := ScoreType.reps, value := "Row 500",
             metadata := { totalReps := some 500 } }] := by
  refine ⟨by decide, by decide⟩

/-- Claim C5, counterexample: for the input lines "Workout", "8 + 25",
"25:55" the returned score list contains exactly one time-kind score, and it
is named "Round 2", not "Finish Time" (the reps line incremented the round
counter first, and the post-pass renames only a lone "Round 1"). -/
theorem c5_cex :
    (parseWorkoutFromRawText "Workout\n8 + 25\n25:55").score.filter
        (fun s => s.type == ScoreType.time)
      = [{ name := "Round 2", type := ScoreType.time, value := "25:55",
           metadata := { timeInSeconds := some 1555 } }] := by
  decide

/-- Claim C7, counterexample: with no title keyword, one time score and no
reps score but an additional weight score, the code returns "Unknown" while
the claim ("exactly one time score and no reps score gives For Time") would
require "For Time": the code demands that the score list consist of exactly
one score. -/
theorem c7_cex :
    detectWorkoutType "Open Gym" []
        [{ name := "Finish Time", type := ScoreType.time, value := "4:06",
           metadata := { timeInSeconds := some 246 } },
         { name := "Weight", type := ScoreType.weight, value := "315 lbs",
           metadata := { weight := some 315, unit := some "lbs" } }]
      = "Unknown" ∧ ("Unknown" : String) ≠ "For Time" := by
  refine ⟨by decide, by decide⟩

/-- Claim C7 as amended: detectWorkoutType checks the title keywords in the
stated order, and the structural inference requires the whole lists — an
element list that is exactly one movement whose amount contains an x gives
Lift; a score list that is exactly one score, of kind time, gives For Time,
of kind reps gives For Reps; otherwise Unknown. Stated as agreement with the
spec-level detectWorkoutTypeSpec. -/
theorem c7_amended (t : String) (ms : List WorkoutElement) (ss : List ScoreElement) :
    detectWorkoutType t ms ss = detectWorkoutTypeSpec t ms ss := by
  unfold detectWorkoutType detectWorkoutTypeSpec
  by_cases h1 : includesS "amrap" (lowerS t) = true
  · simp [h1]
  by_cases h2 : (edMomFind (lowerS t).data).isSome = true
  · simp [h1, h2]
  by_cases h3 : includesS "emom" (lowerS t) = true
  · simp [h1, h2, h3]
  by_cases h4 : includesS "chipper" (lowerS t) = true
  · simp [h1, h2, h3, h4]
  by_cases h5 : includesS "rounds for time" (lowerS t) = true
  · simp [h1, h2, h3, h4, h5]
  by_cases h6 : includesS "for time" (lowerS t) = true
  · simp [h1, h2, h3, h4, h5, h6]
  by_cases h7 : includesS "for reps" (lowerS t) = true
  · simp [h1, h2, h3, h4, h5, h6, h7]
  rcases ms with _ | ⟨m, mrest⟩
  · rcases ss with _ | ⟨s, srest⟩
    · simp [h1, h2, h3, h4, h5, h6, h7]
    · rcases srest with _ | ⟨s2, srest2⟩
      · cases hty : s.type <;> simp [h1, h2, h3, h4, h5, h6, h7, hty]
      · simp [h1, h2, h3, h4, h5, h6, h7]
  · rcases mrest with _ | ⟨m2, mrest2⟩
    · cases m with
      | movement a e u =>
        by_cases ha : a = ""
        · rcases ss with _ | ⟨s, srest⟩
          · simp [h1, h2, h3, h4, h5, h6, h7, ha]
          · rcases srest with _ | ⟨s2, srest2⟩
            · cases hty : s.type <;> simp [h1, h2, h3, h4, h5, h6, h7, ha, hty]
            · simp [h1, h2, h3, h4, h5, h6, h7, ha]
        · by_cases hx : 'x' ∈ a.data
          · simp [h1, h2, h3, h4, h5, h6, h7, ha, hx]
          · rcases ss with _ | ⟨s, srest⟩
            · simp [h1, h2, h3, h4, h5, h6, h7, ha, hx]
            · rcases srest with _ | ⟨s2, srest2⟩
              · cases hty : s.type <;> simp [h1, h2, h3, h4, h5, h6, h7, ha, hx, hty]
              · simp [h1, h2, h3, h4, h5, h6, h7, ha, hx]
      | descriptive tx k d =>
        rcases ss with _ | ⟨s, srest⟩
        · simp [h1, h2, h3, h4, h5, h6, h7]
        · rcases srest with _ | ⟨s2, srest2⟩
          · cases hty : s.type <;> simp [h1, h2, h3, h4, h5, h6, h7, hty]
          · simp [h1, h2, h3, h4, h5, h6, h7]
    · rcases ss with _ | ⟨s, srest⟩
      · simp [h1, h2, h3, h4, h5, h6, h7]
      · rcases srest with _ | ⟨s2, srest2⟩
        · cases hty : s.type <;> simp [h1, h2, h3, h4, h5, h6, h7, hty]
        · simp [h1, h2, h3, h4, h5, h6, h7]

/-- The rename map of the lone-time post-pass does not change a score's
type. -/
theorem renameMap_type (s : ScoreElement) :
    (if s.type == ScoreType.time then { s with name := "Finish Time" } else s).type
      = s.type := by
  split <;> rfl

/-- After renameLoneTime, a lone time score is never named "Round 1". -/
theorem renameLoneTime_filter (scores : List ScoreElement) (sc : ScoreElement)
    (h : (renameLoneTime scores).filter (fun s => s.type == ScoreType.time) = [sc]) :
    sc.name ≠ "Round 1" := by
  unfold renameLoneTime at h
  set p : ScoreElement → Bool := fun s => s.type == ScoreType.time with hp
  set f : ScoreElement → ScoreElement :=
    fun s => if s.type == ScoreType.time then { s with name := "Finish Time" } else s with hf
  by_cases hc : ((scores.filter p).length = 1 &&
      (match (scores.filter p).head? with
       | some s => s.name == "Round 1"
       | none => false)) = true
  · rw [if_pos hc] at h
    have hpf : ∀ s, p (f s) = p s := by
      intro s
      simp only [hp, hf, renameMap_type]
    have hfm : (scores.map f).filter p = (scores.filter p).map f := by
      rw [List.filter_map]
      have hcong : List.filter (p ∘ f) scores = List.filter p scores :=
        List.filter_congr (fun s _ => hpf s)
      rw [hcong]
    rw [hfm] at h
    rcases hts : scores.filter p with _ | ⟨t, ts'⟩
    · rw [hts] at h
      exact absurd h (by simp)
    · rcases ts' with _ | ⟨t2, ts2⟩
      · rw [hts] at h
        simp only [List.map_cons, List.map_nil, List.cons.injEq, and_true] at h
        have hpt : p t = true := List.of_mem_filter (by rw [hts]; exact List.mem_cons_self t [])
        have : sc.name = "Finish Time" := by
          rw [← h]
          simp only [hf]
          rw [if_pos hpt]
        rw [this]
        decide
      · rw [hts] at h
        exact absurd (congrArg List.length h) (by simp)
  · rw [if_neg hc] at h
    intro hname
    apply hc
    rw [h]
    simp [hname]

/-- Claim C5 as amended: for every input, if the returned score list contains
exactly one score of kind time, that score is never named "Round 1" (the
post-pass renames a lone "Round 1" time score to "Finish Time"; the lone
time score can, however, carry another name such as "Round 2" or "Set N"
rather than "Finish Time"). -/
theorem c5_amended (raw : String) (sc : ScoreElement)
    (h : (parseWorkoutFromRawText raw).score.filter (fun s => s.type == ScoreType.time)
      = [sc]) :
    sc.name ≠ "Round 1" := by
  obtain ⟨s₀, hs⟩ : ∃ s₀, (parseWorkoutFromRawText raw).score = renameLoneTime s₀ :=
    ⟨_, rfl⟩
  rw [hs] at h
  exact renameLoneTime_filter s₀ sc h

/-- Witness for c5_amended at a concrete input: "Workout" followed by "8:00"
yields exactly one time score, and by c5_amended it is not named
"Round 1". -/
theorem c5_witness :
    ({ name := "Finish Time", type := ScoreType.time, value := "8:00",
       metadata := { timeInSeconds := some 480 } } : ScoreElement).name ≠ "Round 1" :=
  c5_amended "Workout\n8:00" _ (by decide)

/-- Claim C2 as amended: the mutual skip rules hold for the structured
shapes, though not for free-text fallback lines (see the counterexample).
A grid line whose first column is a bare or letter-suffixed number and whose
second column is exercise-like (non-numeric, not "+", not a time, not a
date, longer than one character, not a unit word) is never claimed by the
score pass (its counters are untouched and it emits no score); and a line
whose joined text contains the digits-plus-digits score pattern is never
claimed by the movement pass. -/
theorem c2_amended (line : List String) (rb : Bool) (tc : Option Nat) (st : Nat × Nat) :
    (line.length ≥ 2 →
      digitsLettersFull (getGridColumn line 0).data = true →
      getGridColumn line 1 ≠ "" →
      allDigitsFull (getGridColumn line 1).data = false →
      getGridColumn line 1 ≠ "+" →
      timeColonFull (getGridColumn line 1).data = false →
      dateFull (getGridColumn line 1).data = false →
      (getGridColumn line 1).length > 1 →
      unitWordScore (getGridColumn line 1) = false →
      scoreStep rb tc st line = (st, none)) ∧
    (plusPatternSearch
        (" ".intercalate (line.filter (fun col => jsTrimL col.data ≠ []))).data = true →
      movementStep line = none) := by
  constructor
  · intro hlen h0 h1ne h1d h1p h1t h1date h1len h1u
    obtain ⟨ri, si⟩ := st
    have hne : ¬(line = []) := by
      intro he
      rw [he] at hlen
      simp at hlen
    have hcond : (line.length ≥ 2 &&
        (let col0 := getGridColumn line 0
         let col1 := getGridColumn line 1
         digitsLettersFull col0.data && col1 ≠ "" && !allDigitsFull col1.data &&
           col1 ≠ "+" && !timeColonFull col1.data && !dateFull col1.data &&
           col1.length > 1 && !unitWordScore col1)) = true := by
      simp [hlen, h0, h1ne, h1d, h1p, h1t, h1date, h1len, h1u]
    simp only [scoreStep]
    rw [if_neg hne]
    by_cases a1 :
        headerWordScore
          (" ".intercalate (line.filter (fun col => jsTrimL col.data ≠ []))).data = true
    · rw [if_pos a1]
    · rw [if_neg a1]
      by_cases a2 :
          (restKeyword
            (" ".intercalate (line.filter (fun col => jsTrimL col.data ≠ []))).data).isSome
            = true
      · rw [if_pos a2]
      · rw [if_neg a2]
        by_cases a3 :
            (getGridColumn line 0 == "@" ||
              atPipeStart
                (" ".intercalate
                  (line.filter (fun col => jsTrimL col.data ≠ []))).data) = true
        · rw [if_pos a3]
        · rw [if_neg a3]
          rw [if_pos hcond]
  · intro hplus
    by_cases hline : line = []
    · rw [hline] at hplus
      exact absurd hplus (by decide)
    · simp only [movementStep]
      rw [if_neg hline]
      by_cases b1 : headerWordMovement (getGridColumn line 0) = true
      · rw [if_pos b1]
      · rw [if_neg b1]
        rw [if_pos (by rw [hplus]; rfl :
          (plusPatternSearch
              (" ".intercalate (line.filter (fun col => jsTrimL col.data ≠ []))).data ||
            (line.length ≥ 3 && getGridColumn line 1 == "+" &&
              (jsParseInt (getGridColumn line 0)).isSome &&
              (jsParseInt (getGridColumn line 2)).isSome)) = true)]

/-- The cleaned title is never the empty string: the fallback is "Workout"
and the kept branch has at least two characters. -/
theorem cleanedTitle_ne_empty (grid : List (List String)) : cleanedTitle grid ≠ "" := by
  simp only [cleanedTitle]
  split_ifs with h
  · decide
  · intro he
    apply h
    have he2 : _ = ([] : List Char) := List.asString_inj.mp he
    simp [he2]

/-- The title field of parseTitle is the cleaned title (the JS
title-or-"Workout" guard never fires because the cleaned title is
non-empty). -/
theorem parseTitle_title (grid : List (List String)) :
    (parseTitle grid).title = cleanedTitle grid := by
  simp only [parseTitle]
  rw [if_neg (cleanedTitle_ne_empty grid)]

/-- The EMOM-period field of parseTitle, written out: the E-code capture
first, else the minutes-EMOM capture, else the bare-keyword default of 1. -/
theorem parseTitle_emomPeriod (grid : List (List String)) :
    (parseTitle grid).emomPeriod =
      (match edMomFind (cleanedTitle grid).data with
       | some ds => some (digitsToNat ds)
       | none =>
         match minEmomFind (lowerL (cleanedTitle grid).data) with
         | some n => some n
         | none =>
           if containsSub "emom".data (lowerL (cleanedTitle grid).data) then some 1
           else none) := rfl

/-- Claim C8: for every grid, if the cleaned title matches E(\d+)MOM the
EMOM period is the captured number; else if it matches the minutes-EMOM
pattern the period is that capture; else if the word "emom" appears the
period defaults to 1. In particular (Scenario C) the lines "E5MOM" and
"10 | Burpees" give emomPeriodMinutes = 5 with the final title preserved as
"E5MOM". -/
theorem c8_emom_metadata (grid : List (List String)) :
    (∀ ds, edMomFind (parseTitle grid).title.data = some ds →
      (parseTitle grid).emomPeriod = some (digitsToNat ds)) ∧
    (∀ n, edMomFind (parseTitle grid).title.data = none →
      minEmomFind (lowerL (parseTitle grid).title.data) = some n →
      (parseTitle grid).emomPeriod = some n) ∧
    (edMomFind (parseTitle grid).title.data = none →
      minEmomFind (lowerL (parseTitle grid).title.data) = none →
      containsSub "emom".data (lowerL (parseTitle grid).title.data) = true →
      (parseTitle grid).emomPeriod = some 1) ∧
    (parseTitle [["E5MOM"], ["10", "Burpees"]]).emomPeriod = some 5 ∧
    (parseWorkoutFromRawText "E5MOM\n10 | Burpees").title = "E5MOM" := by
  refine ⟨?_, ?_, ?_, by decide, by decide⟩
  · intro ds h
    rw [parseTitle_title] at h
    rw [parseTitle_emomPeriod, h]
  · intro n h1 h2
    rw [parseTitle_title] at h1 h2
    rw [parseTitle_emomPeriod, h1, h2]
  · intro h1 h2 h3
    rw [parseTitle_title] at h1 h2 h3
    rw [parseTitle_emomPeriod, h1, h2, h3]
    rfl

/-- Witness for c8_emom_metadata at the concrete title "E5MOM". -/
theorem c8_witness :
    edMomFind (parseTitle [["E5MOM"]]).title.data = some ['5'] ∧
    (parseTitle [["E5MOM"]]).emomPeriod = some (digitsToNat ['5']) :=
  ⟨by decide, (c8_emom_metadata [["E5MOM"]]).1 ['5'] (by decide)⟩

/-- detectWorkoutType always returns one of the eight fixed labels. -/
theorem detectWorkoutType_mem (t : String) (ms : List WorkoutElement)
    (ss : List ScoreElement) :
    detectWorkoutType t ms ss ∈
      (["AMRAP", "EMOM", "Chipper", "Rounds for Time", "For Time", "For Reps",
        "Lift", "Unknown"] : List String) := by
  simp only [detectWorkoutType]
  (repeat' split) <;> decide

/-- A string whose first character is not the first character of t differs
from t. -/
theorem ne_of_head_ne (s t : String) (h : s.data.head? ≠ t.data.head?) : s ≠ t := by
  intro he
  exact h (by rw [he])

/-- The three branches of improveTitle give a title that is neither the bare
placeholder "Workout" nor empty (given that the workout type is one of the
detector's eight labels, none of which starts with W). -/
theorem improveTitle_facts (t wt : String) (ms : List WorkoutElement)
    (hwt : wt ∈ (["AMRAP", "EMOM", "Chipper", "Rounds for Time", "For Time",
      "For Reps", "Lift", "Unknown"] : List String)) :
    improveTitle t wt ms ≠ "Workout" ∧ improveTitle t wt ms ≠ "" := by
  simp only [improveTitle]
  split_ifs with h1 h2 h3
  · -- bare E-code branch: the result starts with E
    have hd : (("E" ++ (match edMomFind t.data with
        | some ds => (⟨ds⟩ : String)
        | none => "1")) ++ "MOM").data.head? = some 'E' := rfl
    constructor
    · exact ne_of_head_ne _ _ (by rw [hd]; decide)
    · exact ne_of_head_ne _ _ (by rw [hd]; decide)
  · -- placeholder branch with movement names: the result starts with wt
    have hne : wt.data ≠ [] := by fin_cases hwt <;> decide
    have hW : wt.data.head? ≠ some 'W' := by fin_cases hwt <;> decide
    have hd : ((wt ++ ": ") ++ " + ".intercalate ((movementExercises ms).take 2)).data.head?
        = wt.data.head? := by
      show ((wt.data ++ ": ".data) ++ _).head? = _
      rw [List.append_assoc]
      exact List.head?_append_of_ne_nil wt.data hne
    constructor
    · apply ne_of_head_ne
      rw [hd]
      exact hW
    · apply ne_of_head_ne
      rw [hd]
      intro hc
      exact hne (by simpa using hc)
  · -- placeholder branch without movement names
    have hne : wt.data ≠ [] := by fin_cases hwt <;> decide
    have hW : wt.data.head? ≠ some 'W' := by fin_cases hwt <;> decide
    have hd : (wt ++ " Workout").data.head? = wt.data.head? :=
      List.head?_append_of_ne_nil wt.data hne
    constructor
    · apply ne_of_head_ne
      rw [hd]
      exact hW
    · apply ne_of_head_ne
      rw [hd]
      intro hc
      exact hne (by simpa using hc)
  · -- title kept unchanged
    rw [Bool.or_eq_true, not_or] at h2
    simp only [decide_eq_true_eq] at h2
    obtain ⟨h2a, h2b⟩ := h2
    exact ⟨h2a, fun he => h2b (by rw [he]; rfl)⟩

/-- The title of the final output, written through the pipeline stages. -/
theorem parseWorkout_title (raw : String) :
    (parseWorkoutFromRawText raw).title =
      improveTitle (parseTitle (gridOf raw)).title
        (detectWorkoutType (parseTitle (gridOf raw)).title (parseMovements (gridOf raw))
          (parseScores (gridOf raw) (parseTitle (gridOf raw)).timeCap))
        (parseMovements (gridOf raw)) := by
  simp only [parseWorkoutFromRawText]

/-- The confidence of the final output, written through the pipeline
stages. -/
theorem parseWorkout_confidence (raw : String) :
    (parseWorkoutFromRawText raw).confidence =
      calculateConfidence (ocrDataOf raw) (parseMovements (gridOf raw))
        (parseScores (gridOf raw) (parseTitle (gridOf raw)).timeCap) := by
  simp only [parseWorkoutFromRawText]

/-- Claim C10: the returned title is never the bare placeholder "Workout";
when the title parser fell back to "Workout" the final title is rebuilt from
the detected workout type and up to two movement names (or
"(type) Workout"), so it always embeds the workout type. -/
theorem c10_title_not_placeholder (raw : String) :
    (parseWorkoutFromRawText raw).title ≠ "Workout" ∧
    (∀ wt ms, improveTitle "Workout" wt ms =
      if ((movementExercises ms).take 2).length > 0 then
        wt ++ ": " ++ " + ".intercalate ((movementExercises ms).take 2)
      else wt ++ " Workout") := by
  constructor
  · rw [parseWorkout_title]
    exact (improveTitle_facts _ _ _ (detectWorkoutType_mem _ _ _)).1
  · intro wt ms
    have h1 : edMomFullAnchored ("Workout" : String).data = false := by decide
    simp [improveTitle, h1]

/-- The fold of word confidences, when every word carries the same
confidence. -/
theorem foldl_conf_sum (ws : List OCRWord) (c : ℚ)
    (h : ∀ w ∈ ws, w.confidence = c) :
    ∀ a : ℚ, ws.foldl (fun sum w => sum + w.confidence) a = a + ws.length * c := by
  induction ws with
  | nil => intro a; simp
  | cons w ws ih =>
    intro a
    rw [List.foldl_cons, ih (fun x hx => h x (List.mem_cons_of_mem w hx)),
      h w (List.mem_cons_self w ws)]
    simp only [List.length_cons]
    push_cast
    ring

/-- Bounds of the confidence scorer when every OCR word carries confidence
0.95. -/
theorem calculateConfidence_bounds (o : OCRData) (e : List WorkoutElement)
    (s : List ScoreElement) (h : ∀ w ∈ o.words, w.confidence = 0.95) :
    0 ≤ calculateConfidence o e s ∧ calculateConfidence o e s ≤ 1 := by
  have havg : o.words.length > 0 →
      (o.words.foldl (fun sum w => sum + w.confidence) 0) /
        (o.words.length : ℚ) / 100 = 19 / 2000 := by
    intro hn
    rw [foldl_conf_sum o.words 0.95 h 0, zero_add]
    have hlen : (o.words.length : ℚ) ≠ 0 :=
      Nat.cast_ne_zero.mpr (by omega)
    field_simp
    ring
  constructor
  · simp only [calculateConfidence]
    split_ifs <;>
      first
        | (rw [havg (by omega)]
           norm_num)
        | norm_num
  · simp only [calculateConfidence]
    split_ifs <;>
      first
        | (rw [havg (by omega)]
           norm_num)
        | norm_num

/-- Claim C1: for every raw input string the parse returns a structurally
complete extraction — the title is non-empty and the confidence is a
rational in the unit interval (the element and score lists are total Lean
lists by construction, and the definition is a total function, so it never
throws). -/
theorem c1_total_and_complete (raw : String) :
    (parseWorkoutFromRawText raw).title ≠ "" ∧
    0 ≤ (parseWorkoutFromRawText raw).confidence ∧
    (parseWorkoutFromRawText raw).confidence ≤ 1 := by
  refine ⟨?_, ?_⟩
  · rw [parseWorkout_title]
    exact (improveTitle_facts _ _ _ (detectWorkoutType_mem _ _ _)).2
  · rw [parseWorkout_confidence]
    apply calculateConfidence_bounds
    intro w hw
    simp only [ocrDataOf, wordsOf, List.mem_map] at hw
    obtain ⟨x, _, hx⟩ := hw
    rw [← hx]

/-- Claim C6 (code bug, evaluated at the failing input): for the lines
"Workout" and "8:00" the implementation returns confidence 2269/5000 =
0.4538, not the 0.83 the claimed formula gives: calculateConfidence divides
the average token confidence by 100 (a leftover of a 0-to-100 scale) while
every token of the raw-text entry point carries 0.95 on the 0-to-1 scale,
so the OCR term contributes 0.4·0.0095 instead of 0.4·0.95. -/
theorem c6_confidence_eval :
    (parseWorkoutFromRawText "Workout\n8:00").confidence = 2269 / 5000 ∧
    (2269 / 5000 : ℚ) ≠
      0.4 * 0.95 + 0.3 * 0.9 + 0.3 * (0.3 + 0.4 * 0 + 0.3 * 1) := by
  constructor
  · rw [parseWorkout_confidence]
    have hm : parseMovements (gridOf "Workout\n8:00") = [] := by decide
    have hs : parseScores (gridOf "Workout\n8:00")
          (parseTitle (gridOf "Workout\n8:00")).timeCap
        = [{ name := "Finish Time", type := ScoreType.time, value := "8:00",
             metadata := { timeInSeconds := some 480 } }] := by decide
    have hwords : (ocrDataOf "Workout\n8:00").words
        = [{ text := "Workout", confidence := 0.95 },
           { text := "8:00", confidence := 0.95 }] := rfl
    rw [hm, hs]
    simp only [calculateConfidence, hwords]
    norm_num [List.foldl]
  · norm_num

/-- Witness for c2_amended at concrete lines: the movement-shaped grid line
"30 | DU" is skipped by the score pass, and the plus-pattern line "8 + 25"
is skipped by the movement pass. -/
theorem c2_witness :
    scoreStep false none (0, 0) ["30", "DU"] = ((0, 0), none) ∧
    movementStep ["8 + 25"] = none :=
  ⟨(c2_amended ["30", "DU"] false none (0, 0)).1 (by decide) (by decide) (by decide)
      (by decide) (by decide) (by decide) (by decide) (by decide) (by decide),
    (c2_amended ["8 + 25"] false none (0, 0)).2 (by decide)⟩

/-! ## Normalizer idempotence (claim C9): supporting lemmas

The per-line normalizer cleanLine always emits a line in canonical form:
the fields are non-empty, pipe-free, whitespace-collapsed, and joined by
the three-character separator of a space, a pipe and a space.  Normalizing
a line that is already in canonical form is the identity. -/

/-- The separator used to rejoin fields. -/
theorem sepData : " | ".data = ' ' :: '|' :: ' ' :: [] := rfl

/-- Characters surviving dropWhile are characters of the list. -/
theorem mem_of_mem_dropWhileWs (x : Char) :
    ∀ l : List Char, x ∈ l.dropWhile jsIsWs → x ∈ l
  | [], h => h
  | c :: cs, h => by
    rw [List.dropWhile_cons] at h
    by_cases hc : jsIsWs c = true
    · rw [if_pos hc] at h
      exact List.mem_cons_of_mem _ (mem_of_mem_dropWhileWs x cs h)
    · rw [if_neg hc] at h
      exact h

/-- The head of a dropWhile result does not satisfy the predicate. -/
theorem dropWhileWs_head :
    ∀ (l : List Char) (c : Char), (l.dropWhile jsIsWs).head? = some c → jsIsWs c = false
  | [], c, h => by simp at h
  | d :: cs, c, h => by
    rw [List.dropWhile_cons] at h
    by_cases hd : jsIsWs d = true
    · rw [if_pos hd] at h
      exact dropWhileWs_head cs c h
    · rw [if_neg hd] at h
      simp only [List.head?_cons, Option.some.injEq] at h
      subst h
      simpa using hd

/-- dropWhile is the identity when the head does not satisfy the predicate. -/
theorem dropWhileWs_eq_self (l : List Char)
    (h : ∀ c, l.head? = some c → jsIsWs c = false) : l.dropWhile jsIsWs = l := by
  cases l with
  | nil => rfl
  | cons c cs =>
    have hc := h c rfl
    rw [List.dropWhile_cons, if_neg (by simp [hc])]

/-- dropWhile keeps the last element when its result is non-empty. -/
theorem dropWhileWs_getLast? :
    ∀ l : List Char, l.dropWhile jsIsWs ≠ [] →
      (l.dropWhile jsIsWs).getLast? = l.getLast?
  | [], h => (h rfl).elim
  | c :: cs, h => by
    rw [List.dropWhile_cons] at h ⊢
    by_cases hc : jsIsWs c = true
    · rw [if_pos hc] at h ⊢
      have hcs : cs ≠ [] := by
        intro hnil
        rw [hnil] at h
        exact h rfl
      rw [dropWhileWs_getLast? cs h]
      cases cs with
      | nil => exact absurd rfl hcs
      | cons d ds => rw [List.getLast?_cons_cons]
    · rw [if_neg hc]

/-- jsTrimL is the identity on lists whose two ends are not whitespace. -/
theorem jsTrimL_eq_self (l : List Char)
    (hh : ∀ c, l.head? = some c → jsIsWs c = false)
    (hl : ∀ c, l.getLast? = some c → jsIsWs c = false) : jsTrimL l = l := by
  unfold jsTrimL
  rw [dropWhileWs_eq_self l hh]
  rw [dropWhileWs_eq_self l.reverse (fun c hc => hl c (by rwa [List.head?_reverse] at hc))]
  exact List.reverse_reverse l

/-- The head of a trimmed list is not whitespace. -/
theorem jsTrimL_head (l : List Char) (c : Char)
    (h : (jsTrimL l).head? = some c) : jsIsWs c = false := by
  unfold jsTrimL at h
  rw [List.head?_reverse] at h
  have hne : (l.dropWhile jsIsWs).reverse.dropWhile jsIsWs ≠ [] := by
    intro h0
    rw [h0] at h
    simp at h
  rw [dropWhileWs_getLast? (l.dropWhile jsIsWs).reverse hne] at h
  rw [List.getLast?_reverse] at h
  exact dropWhileWs_head l c h

/-- The last character of a trimmed list is not whitespace. -/
theorem jsTrimL_last (l : List Char) (c : Char)
    (h : (jsTrimL l).getLast? = some c) : jsIsWs c = false := by
  unfold jsTrimL at h
  rw [List.getLast?_reverse] at h
  exact dropWhileWs_head _ c h

/-- Characters of a trimmed list are characters of the original list. -/
theorem mem_of_mem_jsTrimL (x : Char) (l : List Char) (h : x ∈ jsTrimL l) : x ∈ l := by
  unfold jsTrimL at h
  rw [List.mem_reverse] at h
  have h2 := mem_of_mem_dropWhileWs x _ h
  rw [List.mem_reverse] at h2
  exact mem_of_mem_dropWhileWs x l h2

/-- A list's head is one of its elements. -/
theorem mem_of_head?_eq (l : List Char) (c : Char) (h : l.head? = some c) : c ∈ l := by
  cases l with
  | nil => simp at h
  | cons a t =>
    simp only [List.head?_cons, Option.some.injEq] at h
    subst h
    exact List.mem_cons_self _ _

/-- A list's last element is one of its elements. -/
theorem mem_of_getLast?_eq (l : List Char) (c : Char) (h : l.getLast? = some c) : c ∈ l := by
  rcases List.eq_nil_or_concat l with rfl | ⟨L, d, rfl⟩
  · simp at h
  · rw [List.concat_eq_append] at h ⊢
    rw [List.getLast?_concat] at h
    simp only [Option.some.injEq] at h
    subst h
    exact List.mem_append_right L (List.mem_cons_self _ _)

/-- splitOnC never returns the empty list of fields. -/
theorem splitOnC_ne_nil (sep : Char) : ∀ l : List Char, splitOnC sep l ≠ []
  | [] => by simp [splitOnC]
  | c :: cs => by
    simp only [splitOnC]
    by_cases hc : c = sep
    · rw [if_pos hc]
      simp
    · rw [if_neg hc]
      cases hsp : splitOnC sep cs with
      | nil => simp
      | cons t ts => simp

/-- No field produced by splitOnC contains the separator. -/
theorem not_mem_splitOnC (sep : Char) (l : List Char) :
    ∀ p ∈ splitOnC sep l, sep ∉ p := by
  induction l with
  | nil =>
    intro p hp
    simp [splitOnC] at hp
    subst hp
    simp
  | cons c cs ih =>
    intro p hp
    simp only [splitOnC] at hp
    by_cases hc : c = sep
    · rw [if_pos hc] at hp
      rcases List.mem_cons.mp hp with rfl | hp2
      · simp
      · exact ih p hp2
    · rw [if_neg hc] at hp
      cases hsp : splitOnC sep cs with
      | nil => exact absurd hsp (splitOnC_ne_nil sep cs)
      | cons t ts =>
        rw [hsp] at hp
        have hts : ∀ q ∈ t :: ts, sep ∉ q := by
          rw [← hsp]
          exact ih
        rcases List.mem_cons.mp hp with rfl | hp2
        · intro hmem
          rcases List.mem_cons.mp hmem with heq | hmem2
          · exact hc heq.symm
          · exact hts t (List.mem_cons_self t ts) hmem2
        · exact hts p (List.mem_cons_of_mem t hp2)

/-- Characters of splitOnC fields are characters of the input. -/
theorem mem_of_mem_splitOnC (sep : Char) (l : List Char) :
    ∀ p ∈ splitOnC sep l, ∀ x ∈ p, x ∈ l := by
  induction l with
  | nil =>
    intro p hp x hx
    simp [splitOnC] at hp
    subst hp
    simp at hx
  | cons c cs ih =>
    intro p hp x hx
    simp only [splitOnC] at hp
    by_cases hc : c = sep
    · rw [if_pos hc] at hp
      rcases List.mem_cons.mp hp with rfl | hp2
      · simp at hx
      · exact List.mem_cons_of_mem c (ih p hp2 x hx)
    · rw [if_neg hc] at hp
      cases hsp : splitOnC sep cs with
      | nil => exact absurd hsp (splitOnC_ne_nil sep cs)
      | cons t ts =>
        rw [hsp] at hp
        have iht : ∀ q ∈ t :: ts, ∀ x ∈ q, x ∈ cs := by
          rw [← hsp]
          exact ih
        rcases List.mem_cons.mp hp with rfl | hp2
        · rcases List.mem_cons.mp hx with rfl | hx2
          · simp
          · exact List.mem_cons_of_mem c (iht t (List.mem_cons_self t ts) x hx2)
        · exact List.mem_cons_of_mem c (iht p (List.mem_cons_of_mem t hp2) x hx)

/-- Splitting a separator-free list yields the single field. -/
theorem splitOnC_no_sep (sep : Char) (q : List Char) (hq : sep ∉ q) :
    splitOnC sep q = [q] := by
  induction q with
  | nil => rfl
  | cons c cs ih =>
    have hc : ¬ c = sep := by
      intro h
      subst h
      exact hq (List.mem_cons_self c cs)
    simp only [splitOnC]
    rw [if_neg hc, ih (fun h => hq (List.mem_cons_of_mem c h))]

/-- Splitting past a separator-free prefix peels off one field. -/
theorem splitOnC_append (sep : Char) (q : List Char) (hq : sep ∉ q) (rest : List Char) :
    splitOnC sep (q ++ sep :: rest) = q :: splitOnC sep rest := by
  induction q with
  | nil => simp [splitOnC]
  | cons c cs ih =>
    have hc : ¬ c = sep := by
      intro h
      subst h
      exact hq (List.mem_cons_self c cs)
    simp only [List.cons_append, splitOnC]
    rw [if_neg hc]
    simp only [List.append_eq]
    rw [ih (fun h => hq (List.mem_cons_of_mem c h))]

/-- Splitting undoes joining with a one-character separator when the fields
are separator-free. -/
theorem splitOnC_joinWith (sep : Char) (qs : List (List Char)) :
    qs ≠ [] → (∀ q ∈ qs, sep ∉ q) → splitOnC sep (joinWithL [sep] qs) = qs := by
  induction qs with
  | nil =>
    intro h
    exact absurd rfl h
  | cons q qs ih =>
    intro _ hq
    cases qs with
    | nil =>
      simpa [joinWithL] using splitOnC_no_sep sep q (hq q (List.mem_cons_self q []))
    | cons q2 qs2 =>
      have hJ : joinWithL [sep] (q :: q2 :: qs2) = q ++ sep :: joinWithL [sep] (q2 :: qs2) := by
        have h1 : joinWithL [sep] (q :: q2 :: qs2)
            = q ++ [sep] ++ joinWithL [sep] (q2 :: qs2) := rfl
        rw [h1]
        simp [List.append_assoc]
      rw [hJ, splitOnC_append sep q (hq q (List.mem_cons_self _ _))]
      rw [ih (by simp) (fun p hp => hq p (List.mem_cons_of_mem q hp))]

/-- The head of a joined list is the head of its first field. -/
theorem joinWithL_head (sep : List Char) (q : List Char) (qs : List (List Char))
    (hq : q ≠ []) : (joinWithL sep (q :: qs)).head? = q.head? := by
  cases qs with
  | nil => rfl
  | cons q2 qs2 =>
    show ((q ++ sep) ++ joinWithL sep (q2 :: qs2)).head? = q.head?
    rw [List.head?_append_of_ne_nil (q ++ sep) (by simp [hq]),
      List.head?_append_of_ne_nil q hq]

/-- A join headed by a non-empty field is non-empty. -/
theorem joinWithL_ne_nil (sep : List Char) (q : List Char) (qs : List (List Char))
    (hq : q ≠ []) : joinWithL sep (q :: qs) ≠ [] := by
  have hh := joinWithL_head sep q qs hq
  intro h0
  rw [h0] at hh
  cases q with
  | nil => exact hq rfl
  | cons a t => simp at hh

/-- The last element of (a ++ b) is that of b when b is non-empty. -/
theorem getLast?_append_ne (a b : List Char) (hb : b ≠ []) :
    (a ++ b).getLast? = b.getLast? := by
  rcases List.eq_nil_or_concat b with rfl | ⟨L, d, rfl⟩
  · exact absurd rfl hb
  · rw [List.concat_eq_append, ← List.append_assoc, List.getLast?_concat, List.getLast?_concat]

/-- The last character of a join of non-empty fields is the last character of
one of the fields. -/
theorem joinWithL_getLast (sep : List Char) (qs : List (List Char)) :
    (∀ q ∈ qs, q ≠ []) → ∀ c : Char,
      (joinWithL sep qs).getLast? = some c → ∃ q ∈ qs, q.getLast? = some c := by
  induction qs with
  | nil =>
    intro _ c h
    simp [joinWithL] at h
  | cons q qs ih =>
    intro hq c h
    cases qs with
    | nil => exact ⟨q, List.mem_cons_self q [], h⟩
    | cons q2 qs2 =>
      have hne : joinWithL sep (q2 :: qs2) ≠ [] :=
        joinWithL_ne_nil sep q2 qs2 (hq q2 (by simp))
      have hJ : joinWithL sep (q :: q2 :: qs2)
          = (q ++ sep) ++ joinWithL sep (q2 :: qs2) := rfl
      rw [hJ, getLast?_append_ne _ _ hne] at h
      obtain ⟨p, hp, hpl⟩ := ih (fun r hr => hq r (List.mem_cons_of_mem q hr)) c h
      exact ⟨p, List.mem_cons_of_mem q hp, hpl⟩

/-- Characters of a join come from the separator or from one of the fields. -/
theorem mem_joinWithL (sep : List Char) (qs : List (List Char)) :
    ∀ x ∈ joinWithL sep qs, x ∈ sep ∨ ∃ q ∈ qs, x ∈ q := by
  induction qs with
  | nil =>
    intro x hx
    simp [joinWithL] at hx
  | cons q qs ih =>
    intro x hx
    cases qs with
    | nil => exact Or.inr ⟨q, by simp, hx⟩
    | cons q2 qs2 =>
      have hJ : joinWithL sep (q :: q2 :: qs2)
          = (q ++ sep) ++ joinWithL sep (q2 :: qs2) := rfl
      rw [hJ] at hx
      rcases List.mem_append.mp hx with h1 | h2
      · rcases List.mem_append.mp h1 with h1a | h1b
        · exact Or.inr ⟨q, by simp, h1a⟩
        · exact Or.inl h1b
      · rcases ih x h2 with hs | ⟨p, hp, hxp⟩
        · exact Or.inl hs
        · exact Or.inr ⟨p, List.mem_cons_of_mem q hp, hxp⟩

/-- Mapping a function that fixes every element is the identity. -/
theorem map_fix (f : List Char → List Char) (l : List (List Char))
    (h : ∀ a ∈ l, f a = a) : l.map f = l := by
  induction l with
  | nil => rfl
  | cons a t ih =>
    rw [List.map_cons, h a (List.mem_cons_self a t),
      ih (fun b hb => h b (List.mem_cons_of_mem a hb))]

/-- On a pipe-free input the pipe-whitespace absorber only flushes its
pending whitespace. -/
theorem replPipeWsAux_no_pipe (a : List Char) (ha : '|' ∉ a) :
    ∀ pend, replPipeWsAux false pend a = pend.reverse ++ a := by
  induction a with
  | nil =>
    intro pend
    simp [replPipeWsAux]
  | cons c cs ih =>
    intro pend
    have hc : ¬ c = '|' := by
      intro h
      subst h
      exact ha (List.mem_cons_self _ _)
    have ha2 : '|' ∉ cs := fun h => ha (List.mem_cons_of_mem c h)
    by_cases hw : jsIsWs c = true
    · rw [show replPipeWsAux false pend (c :: cs) = replPipeWsAux false (c :: pend) cs from by
        simp [replPipeWsAux, hc, hw]]
      rw [ih ha2 (c :: pend)]
      simp
    · rw [show replPipeWsAux false pend (c :: cs) = pend.reverse ++ c :: replPipeWsAux false [] cs
          from by simp [replPipeWsAux, hc, hw]]
      rw [ih ha2 []]
      simp

/-- Passing a pipe-free prefix that ends in a non-whitespace, non-pipe
character flushes the machine back to its initial state. -/
theorem replPipeWsAux_flush (d : Char) (hd1 : ¬ d = '|') (hd2 : jsIsWs d = false)
    (a : List Char) (ha : '|' ∉ a) :
    ∀ pend r, replPipeWsAux false pend (a ++ d :: r) =
      pend.reverse ++ a ++ d :: replPipeWsAux false [] r := by
  induction a with
  | nil =>
    intro pend r
    simp only [List.nil_append]
    rw [show replPipeWsAux false pend (d :: r) = pend.reverse ++ d :: replPipeWsAux false [] r
        from by simp [replPipeWsAux, hd1, hd2]]
    simp
  | cons c cs ih =>
    intro pend r
    have hc : ¬ c = '|' := by
      intro h
      subst h
      exact ha (List.mem_cons_self _ _)
    have ha2 : '|' ∉ cs := fun h => ha (List.mem_cons_of_mem c h)
    rw [List.cons_append]
    by_cases hw : jsIsWs c = true
    · rw [show replPipeWsAux false pend (c :: (cs ++ d :: r))
            = replPipeWsAux false (c :: pend) (cs ++ d :: r) from by
          simp [replPipeWsAux, hc, hw]]
      rw [ih ha2 (c :: pend) r]
      simp
    · rw [show replPipeWsAux false pend (c :: (cs ++ d :: r))
            = pend.reverse ++ c :: replPipeWsAux false [] (cs ++ d :: r) from by
          simp [replPipeWsAux, hc, hw]]
      rw [ih ha2 [] r]
      simp

/-- After a pipe, a non-whitespace character resets the machine to the
initial state. -/
theorem replPipeWsAux_true_entry (x : Char) (hx : jsIsWs x = false) (t : List Char) :
    replPipeWsAux true [] (x :: t) = replPipeWsAux false [] (x :: t) := by
  by_cases hxp : x = '|'
  · subst hxp
    simp [replPipeWsAux]
  · simp [replPipeWsAux, hxp, hx]

/-- Every character the absorber emits is a pending character, an input
character or a pipe. -/
theorem mem_replPipeWsAux (l : List Char) :
    ∀ (b : Bool) (pend : List Char) (x : Char),
      x ∈ replPipeWsAux b pend l → x ∈ pend ∨ x ∈ l ∨ x = '|' := by
  induction l with
  | nil =>
    intro b pend x hx
    exact Or.inl (List.mem_reverse.mp hx)
  | cons c cs ih =>
    intro b pend x hx
    by_cases hcp : c = '|'
    · subst hcp
      rw [show replPipeWsAux b pend ('|' :: cs) = '|' :: replPipeWsAux true [] cs from by
        simp [replPipeWsAux]] at hx
      rcases List.mem_cons.mp hx with rfl | hx2
      · exact Or.inr (Or.inr rfl)
      · rcases ih true [] x hx2 with h | h | h
        · simp at h
        · exact Or.inr (Or.inl (List.mem_cons_of_mem _ h))
        · exact Or.inr (Or.inr h)
    · by_cases hw : jsIsWs c = true
      · cases b
        · rw [show replPipeWsAux false pend (c :: cs) = replPipeWsAux false (c :: pend) cs
              from by simp [replPipeWsAux, hcp, hw]] at hx
          rcases ih false (c :: pend) x hx with h | h | h
          · rcases List.mem_cons.mp h with rfl | h2
            · exact Or.inr (Or.inl (List.mem_cons_self _ _))
            · exact Or.inl h2
          · exact Or.inr (Or.inl (List.mem_cons_of_mem _ h))
          · exact Or.inr (Or.inr h)
        · rw [show replPipeWsAux true pend (c :: cs) = replPipeWsAux true [] cs
              from by simp [replPipeWsAux, hcp, hw]] at hx
          rcases ih true [] x hx with h | h | h
          · simp at h
          · exact Or.inr (Or.inl (List.mem_cons_of_mem _ h))
          · exact Or.inr (Or.inr h)
      · rw [show replPipeWsAux b pend (c :: cs)
              = pend.reverse ++ c :: replPipeWsAux false [] cs from by
            simp [replPipeWsAux, hcp, hw]] at hx
        rcases List.mem_append.mp hx with h | h
        · exact Or.inl (List.mem_reverse.mp h)
        · rcases List.mem_cons.mp h with rfl | h2
          · exact Or.inr (Or.inl (List.mem_cons_self _ _))
          · rcases ih false [] x h2 with h3 | h3 | h3
            · simp at h3
            · exact Or.inr (Or.inl (List.mem_cons_of_mem _ h3))
            · exact Or.inr (Or.inr h3)

/-- The absorber turns each three-character separator of a canonical line
into a bare pipe. -/
theorem replPipeWs_joinWith (qs : List (List Char))
    (hq : ∀ q ∈ qs, q ≠ [] ∧ '|' ∉ q ∧
      (∀ c, q.head? = some c → jsIsWs c = false) ∧
      (∀ c, q.getLast? = some c → jsIsWs c = false)) :
    replPipeWs (joinWithL " | ".data qs) = joinWithL ['|'] qs := by
  induction qs with
  | nil => rfl
  | cons q qs ih =>
    obtain ⟨hqne, hqp, hqh, hql⟩ := hq q (List.mem_cons_self q qs)
    cases qs with
    | nil =>
      show replPipeWs q = q
      unfold replPipeWs
      rw [replPipeWsAux_no_pipe q hqp []]
      rfl
    | cons q2 qs2 =>
      obtain ⟨hq2ne, hq2p, hq2h, _⟩ := hq q2 (List.mem_cons_of_mem q (List.mem_cons_self q2 qs2))
      rcases List.eq_nil_or_concat q with rfl | ⟨L, d, rfl⟩
      · exact absurd rfl hqne
      · rw [List.concat_eq_append] at *
        have hd : jsIsWs d = false := hql d (List.getLast?_concat L)
        have hd1 : ¬ d = '|' := by
          intro h
          subst h
          exact hqp (by simp)
        have hL : '|' ∉ L := fun h => hqp (List.mem_append_left _ h)
        have hJ : joinWithL " | ".data ((L ++ [d]) :: q2 :: qs2)
            = L ++ d :: (' ' :: '|' :: ' ' :: joinWithL " | ".data (q2 :: qs2)) := by
          have h1 : joinWithL " | ".data ((L ++ [d]) :: q2 :: qs2)
              = (L ++ [d]) ++ " | ".data ++ joinWithL " | ".data (q2 :: qs2) := rfl
          rw [h1, sepData]
          simp [List.append_assoc]
        rw [hJ]
        unfold replPipeWs
        rw [replPipeWsAux_flush d hd1 hd L hL]
        have hstep : replPipeWsAux false []
              (' ' :: '|' :: ' ' :: joinWithL " | ".data (q2 :: qs2))
            = '|' :: replPipeWsAux true [] (joinWithL " | ".data (q2 :: qs2)) := rfl
        rw [hstep]
        cases hJ2 : joinWithL " | ".data (q2 :: qs2) with
        | nil => exact absurd hJ2 (joinWithL_ne_nil _ q2 qs2 hq2ne)
        | cons c2 J2 =>
          have hh : q2.head? = some c2 := by
            have hhd := joinWithL_head " | ".data q2 qs2 hq2ne
            rw [hJ2] at hhd
            exact hhd.symm
          have hc2 : jsIsWs c2 = false := hq2h c2 hh
          rw [replPipeWsAux_true_entry c2 hc2 J2, ← hJ2]
          have ihj := ih (fun p hp => hq p (List.mem_cons_of_mem _ hp))
          unfold replPipeWs at ihj
          rw [ihj]
          have hJ3 : joinWithL ['|'] ((L ++ [d]) :: q2 :: qs2)
              = (L ++ [d]) ++ ['|'] ++ joinWithL ['|'] (q2 :: qs2) := rfl
          rw [hJ3]
          simp [List.append_assoc]

/-- Pipe-run collapsing passes a pipe-free prefix through unchanged. -/
theorem collapsePipesAux_skip (q : List Char) (hq : '|' ∉ q) :
    ∀ rest, collapsePipesAux false (q ++ rest) = q ++ collapsePipesAux false rest := by
  induction q with
  | nil =>
    intro rest
    simp
  | cons c cs ih =>
    intro rest
    have hc : ¬ c = '|' := by
      intro h
      subst h
      exact hq (List.mem_cons_self _ _)
    rw [List.cons_append,
      show collapsePipesAux false (c :: (cs ++ rest)) = c :: collapsePipesAux false (cs ++ rest)
        from by simp [collapsePipesAux, hc]]
    rw [ih (fun h => hq (List.mem_cons_of_mem c h)) rest]
    rfl

/-- After a pipe, a non-pipe character resets the collapser. -/
theorem collapsePipesAux_true_entry (x : Char) (hx : ¬ x = '|') (t : List Char) :
    collapsePipesAux true (x :: t) = collapsePipesAux false (x :: t) := by
  simp [collapsePipesAux, hx]

/-- Characters emitted by the pipe collapser are input characters. -/
theorem mem_collapsePipesAux (l : List Char) :
    ∀ (b : Bool) (x : Char), x ∈ collapsePipesAux b l → x ∈ l := by
  induction l with
  | nil =>
    intro b x hx
    exact absurd hx (List.not_mem_nil x)
  | cons c cs ih =>
    intro b x hx
    by_cases hcp : c = '|'
    · subst hcp
      cases b
      · rw [show collapsePipesAux false ('|' :: cs) = '|' :: collapsePipesAux true cs from by
          simp [collapsePipesAux]] at hx
        rcases List.mem_cons.mp hx with rfl | h2
        · exact List.mem_cons_self _ _
        · exact List.mem_cons_of_mem _ (ih true x h2)
      · rw [show collapsePipesAux true ('|' :: cs) = collapsePipesAux true cs from by
          simp [collapsePipesAux]] at hx
        exact List.mem_cons_of_mem _ (ih true x hx)
    · rw [show collapsePipesAux b (c :: cs) = c :: collapsePipesAux false cs from by
        simp [collapsePipesAux, hcp]] at hx
      rcases List.mem_cons.mp hx with rfl | h2
      · exact List.mem_cons_self _ _
      · exact List.mem_cons_of_mem _ (ih false x h2)

/-- A pipe-joined list of non-empty pipe-free fields has no pipe runs, so the
collapser leaves it unchanged. -/
theorem collapsePipes_joinWith (qs : List (List Char))
    (hq : ∀ q ∈ qs, q ≠ [] ∧ '|' ∉ q) :
    collapsePipes (joinWithL ['|'] qs) = joinWithL ['|'] qs := by
  induction qs with
  | nil => rfl
  | cons q qs ih =>
    obtain ⟨hqne, hqp⟩ := hq q (List.mem_cons_self q qs)
    cases qs with
    | nil =>
      show collapsePipesAux false q = q
      have h := collapsePipesAux_skip q hqp []
      simpa [show collapsePipesAux false ([] : List Char) = [] from rfl] using h
    | cons q2 qs2 =>
      obtain ⟨hq2ne, hq2p⟩ := hq q2 (by simp)
      have hJ : joinWithL ['|'] (q :: q2 :: qs2)
          = q ++ '|' :: joinWithL ['|'] (q2 :: qs2) := by
        have h1 : joinWithL ['|'] (q :: q2 :: qs2)
            = q ++ ['|'] ++ joinWithL ['|'] (q2 :: qs2) := rfl
        rw [h1]
        simp [List.append_assoc]
      rw [hJ]
      unfold collapsePipes
      rw [collapsePipesAux_skip q hqp]
      have hstep : collapsePipesAux false ('|' :: joinWithL ['|'] (q2 :: qs2))
          = '|' :: collapsePipesAux true (joinWithL ['|'] (q2 :: qs2)) := rfl
      rw [hstep]
      cases hJ2 : joinWithL ['|'] (q2 :: qs2) with
      | nil => exact absurd hJ2 (joinWithL_ne_nil ['|'] q2 qs2 hq2ne)
      | cons c2 J2 =>
        have hh : q2.head? = some c2 := by
          have hhd := joinWithL_head ['|'] q2 qs2 hq2ne
          rw [hJ2] at hhd
          exact hhd.symm
        have hc2 : ¬ c2 = '|' := by
          intro h
          subst h
          exact hq2p (mem_of_head?_eq q2 '|' hh)
        rw [collapsePipesAux_true_entry c2 hc2 J2, ← hJ2]
        have ihj := ih (fun p hp => hq p (List.mem_cons_of_mem q hp))
        unfold collapsePipes at ihj
        rw [ihj]

/-- A non-whitespace character resets the whitespace collapser, splitting the
computation at that point. -/
theorem collapseWsAux_flush (d : Char) (hd : jsIsWs d = false) (a : List Char) :
    ∀ (b : Bool) (r : List Char),
      collapseWsAux b (a ++ d :: r) = collapseWsAux b (a ++ [d]) ++ collapseWsAux false r := by
  induction a with
  | nil =>
    intro b r
    simp [collapseWsAux, hd]
  | cons c cs ih =>
    intro b r
    by_cases hw : jsIsWs c = true
    · cases b
      · simp only [List.cons_append]
        rw [show collapseWsAux false (c :: (cs ++ d :: r))
              = ' ' :: collapseWsAux true (cs ++ d :: r) from by simp [collapseWsAux, hw],
          show collapseWsAux false (c :: (cs ++ [d]))
              = ' ' :: collapseWsAux true (cs ++ [d]) from by simp [collapseWsAux, hw]]
        rw [ih true r]
        simp
      · simp only [List.cons_append]
        rw [show collapseWsAux true (c :: (cs ++ d :: r))
              = collapseWsAux true (cs ++ d :: r) from by simp [collapseWsAux, hw],
          show collapseWsAux true (c :: (cs ++ [d]))
              = collapseWsAux true (cs ++ [d]) from by simp [collapseWsAux, hw]]
        exact ih true r
    · simp only [List.cons_append]
      rw [show collapseWsAux b (c :: (cs ++ d :: r))
            = c :: collapseWsAux false (cs ++ d :: r) from by simp [collapseWsAux, hw],
        show collapseWsAux b (c :: (cs ++ [d]))
            = c :: collapseWsAux false (cs ++ [d]) from by simp [collapseWsAux, hw]]
      rw [ih false r]
      simp

/-- The whitespace collapser is idempotent from either state. -/
theorem collapseWsAux_idem (l : List Char) :
    ∀ b, collapseWsAux b (collapseWsAux b l) = collapseWsAux b l := by
  induction l with
  | nil => intro b; rfl
  | cons c cs ih =>
    intro b
    by_cases hw : jsIsWs c = true
    · cases b
      · rw [show collapseWsAux false (c :: cs) = ' ' :: collapseWsAux true cs from by
          simp [collapseWsAux, hw]]
        rw [show collapseWsAux false (' ' :: collapseWsAux true cs)
            = ' ' :: collapseWsAux true (collapseWsAux true cs) from by
          simp [collapseWsAux, jsIsWs]]
        rw [ih true]
      · rw [show collapseWsAux true (c :: cs) = collapseWsAux true cs from by
          simp [collapseWsAux, hw]]
        exact ih true
    · rw [show collapseWsAux b (c :: cs) = c :: collapseWsAux false cs from by
        simp [collapseWsAux, hw]]
      rw [show collapseWsAux b (c :: collapseWsAux false cs)
          = c :: collapseWsAux false (collapseWsAux false cs) from by
        simp [collapseWsAux, hw]]
      rw [ih false]

/-- A non-whitespace head passes through the collapser from either state. -/
theorem collapseWsAux_cons_not_ws (c : Char) (hc : jsIsWs c = false) (t : List Char) (b : Bool) :
    collapseWsAux b (c :: t) = c :: collapseWsAux false t := by
  simp [collapseWsAux, hc]

/-- A non-whitespace last character passes through the collapser. -/
theorem collapseWsAux_snoc (d : Char) (hd : jsIsWs d = false) (a : List Char) :
    ∀ b, collapseWsAux b (a ++ [d]) = collapseWsAux b a ++ [d] := by
  induction a with
  | nil =>
    intro b
    simp [collapseWsAux, hd]
  | cons c cs ih =>
    intro b
    by_cases hw : jsIsWs c = true
    · cases b
      · rw [List.cons_append,
          show collapseWsAux false (c :: (cs ++ [d]))
              = ' ' :: collapseWsAux true (cs ++ [d]) from by simp [collapseWsAux, hw],
          show collapseWsAux false (c :: cs) = ' ' :: collapseWsAux true cs from by
            simp [collapseWsAux, hw],
          ih true]
        rfl
      · rw [List.cons_append,
          show collapseWsAux true (c :: (cs ++ [d]))
              = collapseWsAux true (cs ++ [d]) from by simp [collapseWsAux, hw],
          show collapseWsAux true (c :: cs) = collapseWsAux true cs from by
            simp [collapseWsAux, hw]]
        exact ih true
    · have hw2 : jsIsWs c = false := by simpa using hw
      rw [List.cons_append, collapseWsAux_cons_not_ws c hw2 _ b,
        collapseWsAux_cons_not_ws c hw2 cs b, ih false]
      rfl

/-- In the in-run state a non-whitespace head behaves as in the initial
state. -/
theorem collapseWsAux_true_entry (x : Char) (hx : jsIsWs x = false) (t : List Char) :
    collapseWsAux true (x :: t) = collapseWsAux false (x :: t) := by
  simp [collapseWsAux, hx]

/-- Characters the collapser emits are input characters or spaces. -/
theorem mem_collapseWsAux (l : List Char) :
    ∀ (b : Bool) (x : Char), x ∈ collapseWsAux b l → x ∈ l ∨ x = ' ' := by
  induction l with
  | nil =>
    intro b x hx
    exact absurd hx (List.not_mem_nil x)
  | cons c cs ih =>
    intro b x hx
    by_cases hw : jsIsWs c = true
    · cases b
      · rw [show collapseWsAux false (c :: cs) = ' ' :: collapseWsAux true cs from by
          simp [collapseWsAux, hw]] at hx
        rcases List.mem_cons.mp hx with rfl | hx2
        · exact Or.inr rfl
        · rcases ih true x hx2 with h | h
          · exact Or.inl (List.mem_cons_of_mem c h)
          · exact Or.inr h
      · rw [show collapseWsAux true (c :: cs) = collapseWsAux true cs from by
          simp [collapseWsAux, hw]] at hx
        rcases ih true x hx with h | h
        · exact Or.inl (List.mem_cons_of_mem c h)
        · exact Or.inr h
    · rw [show collapseWsAux b (c :: cs) = c :: collapseWsAux false cs from by
        simp [collapseWsAux, hw]] at hx
      rcases List.mem_cons.mp hx with rfl | hx2
      · exact Or.inl (List.mem_cons_self _ _)
      · rcases ih false x hx2 with h | h
        · exact Or.inl (List.mem_cons_of_mem c h)
        · exact Or.inr h

/-- The collapser preserves a non-whitespace head. -/
theorem collapseWsL_head (q : List Char) (hqne : q ≠ [])
    (hqh : ∀ c, q.head? = some c → jsIsWs c = false) :
    (collapseWsL q).head? = q.head? := by
  cases q with
  | nil => exact absurd rfl hqne
  | cons c t =>
    have hc := hqh c rfl
    unfold collapseWsL
    rw [collapseWsAux_cons_not_ws c hc t false]
    rfl

/-- The collapser keeps a list with a non-whitespace head non-empty. -/
theorem collapseWsL_ne_nil (q : List Char) (hqne : q ≠ [])
    (hqh : ∀ c, q.head? = some c → jsIsWs c = false) : collapseWsL q ≠ [] := by
  intro h0
  have h := collapseWsL_head q hqne hqh
  rw [h0] at h
  cases q with
  | nil => exact hqne rfl
  | cons c t => simp at h

/-- The collapser preserves a non-whitespace last character. -/
theorem collapseWsL_getLast (q : List Char) (c : Char)
    (hql : ∀ c, q.getLast? = some c → jsIsWs c = false)
    (h : (collapseWsL q).getLast? = some c) : jsIsWs c = false := by
  rcases List.eq_nil_or_concat q with rfl | ⟨L, d, rfl⟩
  · rw [show collapseWsL [] = [] from rfl] at h
    simp at h
  · rw [List.concat_eq_append] at hql h
    have hd : jsIsWs d = false := hql d (List.getLast?_concat L)
    unfold collapseWsL at h
    rw [collapseWsAux_snoc d hd L false, List.getLast?_concat] at h
    have hdc : d = c := by simpa using h
    exact hdc ▸ hd

/-- Collapsing whitespace distributes over the canonical join: the separators
are single spaces around a pipe and every field keeps its non-whitespace
ends. -/
theorem collapseWs_joinWith (qs : List (List Char))
    (hq : ∀ q ∈ qs, q ≠ [] ∧
      (∀ c, q.head? = some c → jsIsWs c = false) ∧
      (∀ c, q.getLast? = some c → jsIsWs c = false)) :
    collapseWsL (joinWithL " | ".data qs) = joinWithL " | ".data (qs.map collapseWsL) := by
  induction qs with
  | nil => rfl
  | cons q qs ih =>
    obtain ⟨hqne, hqh, hql⟩ := hq q (List.mem_cons_self q qs)
    cases qs with
    | nil => rfl
    | cons q2 qs2 =>
      obtain ⟨hq2ne, hq2h, _⟩ := hq q2 (by simp)
      rcases List.eq_nil_or_concat q with rfl | ⟨L, d, rfl⟩
      · exact absurd rfl hqne
      · rw [List.concat_eq_append] at *
        have hd : jsIsWs d = false := hql d (List.getLast?_concat L)
        have hJ : joinWithL " | ".data ((L ++ [d]) :: q2 :: qs2)
            = L ++ d :: (' ' :: '|' :: ' ' :: joinWithL " | ".data (q2 :: qs2)) := by
          have h1 : joinWithL " | ".data ((L ++ [d]) :: q2 :: qs2)
              = (L ++ [d]) ++ " | ".data ++ joinWithL " | ".data (q2 :: qs2) := rfl
          rw [h1, sepData]
          simp [List.append_assoc]
        rw [hJ]
        rw [show collapseWsL (L ++ d :: (' ' :: '|' :: ' ' :: joinWithL " | ".data (q2 :: qs2)))
            = collapseWsAux false (L ++ d :: (' ' :: '|' :: ' ' :: joinWithL " | ".data (q2 :: qs2)))
            from rfl]
        rw [collapseWsAux_flush d hd L false]
        have hstep : collapseWsAux false
              (' ' :: '|' :: ' ' :: joinWithL " | ".data (q2 :: qs2))
            = ' ' :: '|' :: ' ' :: collapseWsAux true (joinWithL " | ".data (q2 :: qs2)) := rfl
        rw [hstep]
        cases hJ2 : joinWithL " | ".data (q2 :: qs2) with
        | nil => exact absurd hJ2 (joinWithL_ne_nil _ q2 qs2 hq2ne)
        | cons c2 J2 =>
          have hh : q2.head? = some c2 := by
            have hhd := joinWithL_head " | ".data q2 qs2 hq2ne
            rw [hJ2] at hhd
            exact hhd.symm
          have hc2 : jsIsWs c2 = false := hq2h c2 hh
          rw [collapseWsAux_true_entry c2 hc2 J2, ← hJ2]
          have ihj : collapseWsAux false (joinWithL " | ".data (q2 :: qs2))
              = joinWithL " | ".data ((q2 :: qs2).map collapseWsL) :=
            ih (fun p hp => hq p (List.mem_cons_of_mem _ hp))
          rw [ihj]
          have hR : joinWithL " | ".data (((L ++ [d]) :: q2 :: qs2).map collapseWsL)
              = collapseWsL (L ++ [d]) ++ " | ".data
                  ++ joinWithL " | ".data ((q2 :: qs2).map collapseWsL) := rfl
          rw [hR, sepData]
          rw [show collapseWsL (L ++ [d]) = collapseWsAux false (L ++ [d]) from rfl]
          simp [List.append_assoc]

/-- Stripping a leading pipe is the identity when the head is not a pipe. -/
theorem stripLeadPipeWs_id (l : List Char) (h : ∀ c, l.head? = some c → ¬ c = '|') :
    stripLeadPipeWs l = l := by
  cases l with
  | nil => rfl
  | cons c t =>
    have hc := h c rfl
    simp only [stripLeadPipeWs]
    split
    · rename_i r heq
      injection heq with h1 h2
      exact absurd h1 hc
    · rfl

/-- Stripping a trailing pipe is the identity when the last character is not
a pipe. -/
theorem stripTrailWsPipe_id (l : List Char) (h : ∀ c, l.getLast? = some c → ¬ c = '|') :
    stripTrailWsPipe l = l := by
  simp only [stripTrailWsPipe]
  split
  · rename_i r heq
    have hlast : l.getLast? = some '|' := by
      rw [← List.head?_reverse, heq]
      rfl
    exact absurd rfl (h '|' hlast)
  · rfl

/-- Characters surviving the leading strip are input characters. -/
theorem mem_stripLeadPipeWs (l : List Char) (x : Char) (hx : x ∈ stripLeadPipeWs l) :
    x ∈ l := by
  simp only [stripLeadPipeWs] at hx
  split at hx
  · rename_i r
    exact List.mem_cons_of_mem _ (mem_of_mem_dropWhileWs x r hx)
  · exact hx

/-- Characters surviving the trailing strip are input characters. -/
theorem mem_stripTrailWsPipe (l : List Char) (x : Char) (hx : x ∈ stripTrailWsPipe l) :
    x ∈ l := by
  simp only [stripTrailWsPipe] at hx
  split at hx
  · rename_i r heq
    rw [List.mem_reverse] at hx
    have h2 := mem_of_mem_dropWhileWs x r hx
    have h3 : x ∈ l.reverse := by
      rw [heq]
      exact List.mem_cons_of_mem _ h2
    rwa [List.mem_reverse] at h3
  · exact hx

/-- cleanLine with its let-bindings unfolded. -/
theorem cleanLine_eq (l : List Char) :
    cleanLine l = jsTrimL (collapseWsL (stripTrailWsPipe (stripLeadPipeWs (joinWithL " | ".data
      (((splitOnC '|' (collapsePipes (replPipeWs l))).map jsTrimL).filter (· ≠ [])))))) := rfl

/-- The fields cleanLine extracts are non-empty, pipe-free and trimmed. -/
theorem cleanParts_props (l : List Char) :
    ∀ q ∈ ((splitOnC '|' (collapsePipes (replPipeWs l))).map jsTrimL).filter (· ≠ []),
      q ≠ [] ∧ '|' ∉ q ∧ (∀ c, q.head? = some c → jsIsWs c = false) ∧
        (∀ c, q.getLast? = some c → jsIsWs c = false) := by
  intro q hq
  rw [List.mem_filter] at hq
  obtain ⟨hqm, hqne⟩ := hq
  rw [List.mem_map] at hqm
  obtain ⟨piece, hpiece, rfl⟩ := hqm
  refine ⟨by simpa using hqne, ?_, fun c hc => jsTrimL_head piece c hc,
    fun c hc => jsTrimL_last piece c hc⟩
  intro hmem
  exact not_mem_splitOnC '|' (collapsePipes (replPipeWs l)) piece hpiece
    (mem_of_mem_jsTrimL '|' piece hmem)

/-- Every cleanLine output is empty or a canonical line: non-empty, pipe-free,
whitespace-collapsed fields with non-whitespace ends, joined by the
three-character separator. -/
theorem cleanLine_canon (l : List Char) :
    cleanLine l = [] ∨
      ∃ qs : List (List Char),
        cleanLine l = joinWithL " | ".data qs ∧ qs ≠ [] ∧
        (∀ q ∈ qs, q ≠ [] ∧ '|' ∉ q ∧
          (∀ c, q.head? = some c → jsIsWs c = false) ∧
          (∀ c, q.getLast? = some c → jsIsWs c = false)) ∧
        (∀ q ∈ qs, collapseWsAux false q = q) := by
  have hparts := cleanParts_props l
  by_cases hp : ((splitOnC '|' (collapsePipes (replPipeWs l))).map jsTrimL).filter (· ≠ []) = []
  · left
    rw [cleanLine_eq l, hp]
    rfl
  · right
    obtain ⟨q1, parts1, hp1⟩ : ∃ q1 parts1,
        ((splitOnC '|' (collapsePipes (replPipeWs l))).map jsTrimL).filter (· ≠ [])
          = q1 :: parts1 := by
      cases hc : ((splitOnC '|' (collapsePipes (replPipeWs l))).map jsTrimL).filter (· ≠ []) with
      | nil => exact absurd hc hp
      | cons a b => exact ⟨a, b, rfl⟩
    rw [hp1] at hparts
    have hq1 := hparts q1 (List.mem_cons_self q1 parts1)
    refine ⟨(q1 :: parts1).map collapseWsL, ?_, by simp, ?_, ?_⟩
    · rw [cleanLine_eq l, hp1]
      have hhead : (joinWithL " | ".data (q1 :: parts1)).head? = q1.head? :=
        joinWithL_head _ q1 parts1 hq1.1
      have hlead : stripLeadPipeWs (joinWithL " | ".data (q1 :: parts1))
          = joinWithL " | ".data (q1 :: parts1) := by
        apply stripLeadPipeWs_id
        intro c hc hcp
        subst hcp
        rw [hhead] at hc
        exact hq1.2.1 (mem_of_head?_eq q1 '|' hc)
      have htrail : stripTrailWsPipe (joinWithL " | ".data (q1 :: parts1))
          = joinWithL " | ".data (q1 :: parts1) := by
        apply stripTrailWsPipe_id
        intro c hc hcp
        subst hcp
        obtain ⟨q, hqm, hql⟩ := joinWithL_getLast " | ".data (q1 :: parts1)
          (fun q hqm => (hparts q hqm).1) '|' hc
        exact (hparts q hqm).2.1 (mem_of_getLast?_eq q '|' hql)
      rw [hlead, htrail]
      rw [collapseWs_joinWith (q1 :: parts1)
        (fun q hqm => ⟨(hparts q hqm).1, (hparts q hqm).2.2.1, (hparts q hqm).2.2.2⟩)]
      apply jsTrimL_eq_self
      · intro c hc
        rw [show ((q1 :: parts1).map collapseWsL) = collapseWsL q1 :: parts1.map collapseWsL
            from rfl] at hc
        rw [joinWithL_head " | ".data (collapseWsL q1) (parts1.map collapseWsL)
          (collapseWsL_ne_nil q1 hq1.1 hq1.2.2.1)] at hc
        rw [collapseWsL_head q1 hq1.1 hq1.2.2.1] at hc
        exact hq1.2.2.1 c hc
      · intro c hc
        have hmapne : ∀ q3 ∈ (q1 :: parts1).map collapseWsL, q3 ≠ [] := by
          intro q3 hq3
          rw [List.mem_map] at hq3
          obtain ⟨q, hqm, rfl⟩ := hq3
          exact collapseWsL_ne_nil q (hparts q hqm).1 (hparts q hqm).2.2.1
        obtain ⟨q3, hq3m, hq3l⟩ := joinWithL_getLast " | ".data
          ((q1 :: parts1).map collapseWsL) hmapne c hc
        rw [List.mem_map] at hq3m
        obtain ⟨q, hqm, rfl⟩ := hq3m
        exact collapseWsL_getLast q c (hparts q hqm).2.2.2 hq3l
    · intro q3 hq3
      rw [List.mem_map] at hq3
      obtain ⟨q, hqm, rfl⟩ := hq3
      obtain ⟨h1, h2, h3, h4⟩ := hparts q hqm
      refine ⟨collapseWsL_ne_nil q h1 h3, ?_, ?_, ?_⟩
      · intro hm
        rcases mem_collapseWsAux q false '|' hm with h | h
        · exact h2 h
        · exact absurd h (by decide)
      · intro c hc
        rw [collapseWsL_head q h1 h3] at hc
        exact h3 c hc
      · intro c hc
        exact collapseWsL_getLast q c h4 hc
    · intro q3 hq3
      rw [List.mem_map] at hq3
      obtain ⟨q, hqm, rfl⟩ := hq3
      exact collapseWsAux_idem q false

/-- Normalizing a canonical line is the identity. -/
theorem cleanLine_fixed (qs : List (List Char)) (hne : qs ≠ [])
    (hq : ∀ q ∈ qs, q ≠ [] ∧ '|' ∉ q ∧
      (∀ c, q.head? = some c → jsIsWs c = false) ∧
      (∀ c, q.getLast? = some c → jsIsWs c = false))
    (hfix : ∀ q ∈ qs, collapseWsAux false q = q) :
    cleanLine (joinWithL " | ".data qs) = joinWithL " | ".data qs := by
  obtain ⟨q1, qs1, rfl⟩ : ∃ q1 qs1, qs = q1 :: qs1 := by
    cases qs with
    | nil => exact absurd rfl hne
    | cons a b => exact ⟨a, b, rfl⟩
  have hq1 := hq q1 (List.mem_cons_self q1 qs1)
  rw [cleanLine_eq]
  rw [replPipeWs_joinWith (q1 :: qs1) hq]
  rw [collapsePipes_joinWith (q1 :: qs1) (fun q hqm => ⟨(hq q hqm).1, (hq q hqm).2.1⟩)]
  rw [splitOnC_joinWith '|' (q1 :: qs1) (by simp) (fun q hqm => (hq q hqm).2.1)]
  rw [map_fix jsTrimL (q1 :: qs1)
    (fun q hqm => jsTrimL_eq_self q (hq q hqm).2.2.1 (hq q hqm).2.2.2)]
  rw [List.filter_eq_self.mpr (fun q hqm => by simpa using (hq q hqm).1)]
  have hhead : (joinWithL " | ".data (q1 :: qs1)).head? = q1.head? :=
    joinWithL_head _ q1 qs1 hq1.1
  have hlead : stripLeadPipeWs (joinWithL " | ".data (q1 :: qs1))
      = joinWithL " | ".data (q1 :: qs1) := by
    apply stripLeadPipeWs_id
    intro c hc hcp
    subst hcp
    rw [hhead] at hc
    exact hq1.2.1 (mem_of_head?_eq q1 '|' hc)
  have htrail : stripTrailWsPipe (joinWithL " | ".data (q1 :: qs1))
      = joinWithL " | ".data (q1 :: qs1) := by
    apply stripTrailWsPipe_id
    intro c hc hcp
    subst hcp
    obtain ⟨q, hqm, hql⟩ := joinWithL_getLast " | ".data (q1 :: qs1)
      (fun q hqm => (hq q hqm).1) '|' hc
    exact (hq q hqm).2.1 (mem_of_getLast?_eq q '|' hql)
  rw [hlead, htrail]
  rw [collapseWs_joinWith (q1 :: qs1)
    (fun q hqm => ⟨(hq q hqm).1, (hq q hqm).2.2.1, (hq q hqm).2.2.2⟩)]
  rw [map_fix collapseWsL (q1 :: qs1) (fun q hqm => hfix q hqm)]
  apply jsTrimL_eq_self
  · intro c hc
    rw [hhead] at hc
    exact hq1.2.2.1 c hc
  · intro c hc
    obtain ⟨q, hqm, hql⟩ := joinWithL_getLast " | ".data (q1 :: qs1)
      (fun q hqm => (hq q hqm).1) c hc
    exact (hq q hqm).2.2.2 c hql

/-- The per-line normalizer is idempotent. -/
theorem cleanLine_idem (l : List Char) : cleanLine (cleanLine l) = cleanLine l := by
  rcases cleanLine_canon l with h | ⟨qs, h, hne, hq, hfix⟩
  · rw [h]
    rfl
  · rw [h]
    exact cleanLine_fixed qs hne hq hfix

/-- Characters of a normalized line are input characters, spaces or pipes. -/
theorem mem_cleanLine (l : List Char) (x : Char) (hx : x ∈ cleanLine l) :
    x ∈ l ∨ x = ' ' ∨ x = '|' := by
  rw [cleanLine_eq] at hx
  have h1 := mem_of_mem_jsTrimL x _ hx
  rcases mem_collapseWsAux _ false x h1 with h2 | h2
  · have h3 := mem_stripTrailWsPipe _ x h2
    have h4 := mem_stripLeadPipeWs _ x h3
    rcases mem_joinWithL " | ".data _ x h4 with h5 | ⟨q, hqm, hxq⟩
    · rw [sepData] at h5
      rcases List.mem_cons.mp h5 with rfl | h6
      · exact Or.inr (Or.inl rfl)
      rcases List.mem_cons.mp h6 with rfl | h7
      · exact Or.inr (Or.inr rfl)
      rcases List.mem_cons.mp h7 with rfl | h8
      · exact Or.inr (Or.inl rfl)
      · simp at h8
    · rw [List.mem_filter] at hqm
      obtain ⟨hqm2, _⟩ := hqm
      rw [List.mem_map] at hqm2
      obtain ⟨piece, hpm, rfl⟩ := hqm2
      have h6 := mem_of_mem_jsTrimL x piece hxq
      have h7 := mem_of_mem_splitOnC '|' _ piece hpm x h6
      have h8 := mem_collapsePipesAux _ false x h7
      rcases mem_replPipeWsAux l false [] x h8 with h9 | h9 | h9
      · simp at h9
      · exact Or.inl h9
      · exact Or.inr (Or.inr h9)
  · exact Or.inr (Or.inl h2)

/-- Claim C9: the line normalizer is idempotent — applying
cleanGeminiPipeOutput twice to any input string gives the same result as
applying it once, because every emitted line is already in canonical form
(empty-field groups collapsed, fields trimmed, rejoined with " | "). -/
theorem c9_normalizer_idempotent (s : String) :
    cleanGeminiPipeOutput (cleanGeminiPipeOutput s) = cleanGeminiPipeOutput s := by
  have hsplit : splitOnC '\n' (joinWithL ['\n'] ((splitOnC '\n' s.data).map cleanLine))
      = (splitOnC '\n' s.data).map cleanLine := by
    apply splitOnC_joinWith
    · intro h0
      rw [List.map_eq_nil_iff] at h0
      exact splitOnC_ne_nil '\n' s.data h0
    · intro p hp
      rw [List.mem_map] at hp
      obtain ⟨piece, hpm, rfl⟩ := hp
      intro hmem
      rcases mem_cleanLine piece '\n' hmem with h | h | h
      · exact not_mem_splitOnC '\n' s.data piece hpm h
      · exact absurd h (by decide)
      · exact absurd h (by decide)
  have hmap : ((splitOnC '\n' s.data).map cleanLine).map cleanLine
      = (splitOnC '\n' s.data).map cleanLine := by
    apply map_fix
    intro a ha
    rw [List.mem_map] at ha
    obtain ⟨p, _, rfl⟩ := ha
    exact cleanLine_idem p
  show (⟨joinWithL ['\n'] ((splitOnC '\n'
      (cleanGeminiPipeOutput s).data).map cleanLine)⟩ : String) = cleanGeminiPipeOutput s
  rw [show (cleanGeminiPipeOutput s).data
      = joinWithL ['\n'] ((splitOnC '\n' s.data).map cleanLine) from rfl]
  rw [hsplit, hmap]
  rfl

end SamFit
